import Mathlib

/- Shallow embedding of the file_structure library (src/file_structure.py).

   Text is modelled as lists of characters (`Str`), filesystem paths both as
   the path strings the library manipulates and, for the filesystem model, as
   lists of path segments (`Pth`).  The filesystem is a finite record of
   existing directory paths and file paths.  Python exceptions
   (AssertionError, KeyError, ValueError, IndexError, TypeError, OSError) and
   the interactive abort (exit(1)) are modelled by the error type `Err`; the
   interactive confirmation prompt reads from a stream of boolean answers
   (an exhausted stream behaves like the default affirmative answer).
   Recursive procedures are given a fuel parameter; `Err.outOfFuel` marks
   exhaustion and never occurs for sufficiently large fuel. -/

abbrev Str := List Char

def pyIsSpace (c : Char) : Bool := c = ' ' || c = '\t'

/-- Python str.lstrip(): drop leading whitespace. -/
def lstrip (s : Str) : Str := s.dropWhile pyIsSpace

/-- Python str.rstrip(): drop trailing whitespace. -/
def rstrip (s : Str) : Str := (s.reverse.dropWhile pyIsSpace).reverse

/-- Python str.strip(). -/
def pyStrip (s : Str) : Str := rstrip (lstrip s)

/-- len(line) - len(line.lstrip()): the number of leading whitespace chars. -/
def numLeading (s : Str) : Nat := s.length - (lstrip s).length

/-- Python str.split(c) for a single-character separator: keeps empty pieces,
    and splitting the empty string yields one empty piece. -/
def splitOnChar (c : Char) : Str → List Str
  | [] => [[]]
  | x :: rest =>
    let r := splitOnChar c rest
    if x = c then [] :: r
    else
      match r with
      | [] => [[x]]
      | h :: t => (x :: h) :: t

/-- The exceptions the Python code can raise, plus `userAbort` for exit(1)
    after a declined confirmation and `outOfFuel` for exhausted fuel. -/
inductive Err where
  | assertFail
  | keyError
  | valueError
  | indexError
  | typeError
  | osError
  | userAbort
  | outOfFuel
  | bugErr
  deriving DecidableEq, Repr

/-- FileCommand (file_structure.py lines 90-99). -/
inductive FileCommand where
  | present
  | absent
  | present_but_remove
  | present_but_recreate
  | absent_but_create
  | create
  | create_if_absent
  deriving DecidableEq, Repr

/-- The token of each FileCommand (its `value`). -/
def FileCommand.value : FileCommand → Str
  | .present => "<0>".toList
  | .absent => "<1>".toList
  | .present_but_remove => "<2>".toList
  | .present_but_recreate => "<3>".toList
  | .absent_but_create => "<4>".toList
  | .create => "<5>".toList
  | .create_if_absent => "<6>".toList

/-- FileCommand.from_str: dictionary lookup by token; `none` models the
    KeyError raised on an unrecognized token. -/
def FileCommand.from_str (s : Str) : Option FileCommand :=
  if s = "<0>".toList then some .present
  else if s = "<1>".toList then some .absent
  else if s = "<2>".toList then some .present_but_remove
  else if s = "<3>".toList then some .present_but_recreate
  else if s = "<4>".toList then some .absent_but_create
  else if s = "<5>".toList then some .create
  else if s = "<6>".toList then some .create_if_absent
  else none

/-- FileStructureCommand (file_structure.py lines 140-142). -/
inductive FileStructureCommand where
  | that_is_all
  | remove_everything_else
  deriving DecidableEq, Repr

def FileStructureCommand.value : FileStructureCommand → Str
  | .that_is_all => "<<0>>".toList
  | .remove_everything_else => "<<1>>".toList

def FileStructureCommand.from_str (s : Str) : Option FileStructureCommand :=
  if s = "<<0>>".toList then some .that_is_all
  else if s = "<<1>>".toList then some .remove_everything_else
  else none

/-- The FileStructure tree.  `list_dir` and `list_dir_file_commands` are the
    two parallel per-child lists the Python object keeps; `dict_dir` is the
    name map (entries are consed at the front on insertion so that the first
    match is the most recent assignment, matching Python dict overwrite);
    `commands_run` is the executed flag. A child is either a plain path
    (`Sum.inl`, an ordinary file) or a nested FileStructure (`Sum.inr`). -/
inductive FileStructure where
  | mk (main_dir : Str)
       (main_dir_file_command : Option FileCommand)
       (main_dir_file_structure_command : Option FileStructureCommand)
       (list_dir : List (Str ⊕ FileStructure))
       (list_dir_file_commands : List (Option FileCommand))
       (dict_dir : List (Str × (Str ⊕ FileStructure)))
       (commands_run : Bool) : FileStructure

abbrev Ch := Str ⊕ FileStructure

def FileStructure.main_dir : FileStructure → Str
  | .mk d _ _ _ _ _ _ => d

def FileStructure.main_dir_file_command : FileStructure → Option FileCommand
  | .mk _ c _ _ _ _ _ => c

def FileStructure.main_dir_file_structure_command : FileStructure → Option FileStructureCommand
  | .mk _ _ sc _ _ _ _ => sc

def FileStructure.list_dir : FileStructure → List Ch
  | .mk _ _ _ l _ _ _ => l

def FileStructure.list_dir_file_commands : FileStructure → List (Option FileCommand)
  | .mk _ _ _ _ cs _ _ => cs

def FileStructure.dict_dir : FileStructure → List (Str × Ch)
  | .mk _ _ _ _ _ d _ => d

def FileStructure.commands_run : FileStructure → Bool
  | .mk _ _ _ _ _ _ r => r

/-- FileStructure.path(): the main directory. -/
def FileStructure.path (f : FileStructure) : Str := f.main_dir

/-- _as_path (file_structure.py lines 38-45). -/
def _as_path : Ch → Str
  | .inl p => p
  | .inr f => f.path

/-- Lookup in the name map; first match is the most recent assignment. -/
def dictLookup : List (Str × Ch) → Str → Option Ch
  | [], _ => none
  | (k', v) :: rest, k => if k' = k then some v else dictLookup rest k

/-- os.path.splitext(path)[1] == "": the final '/'-segment, with leading dots
    dropped, contains no further dot (file_structure.py lines 32-35). -/
def _is_seemingly_dir (p : Str) : Bool :=
  !((((splitOnChar '/' p).getLastD []).dropWhile (· = '.')).contains '.')

/-- The leading/trailing slash stripping of __getitem__ (lines 431-435).
    A key made only of slashes (length at least 2) raises IndexError in the
    Python while loop once the string becomes empty. -/
def stripSlashesKey (key : Str) : Except Err Str :=
  let l := key.dropWhile (· = '/')
  if l = [] then .error .indexError
  else .ok ((l.reverse.dropWhile (· = '/')).reverse)

/-- __getitem__ on a key with no slash in it: the early-return branch for the
    empty key (lines 428-429) or the name-map branch (lines 444-446).  Note
    that the name-map branch always applies `_as_path` to the dictionary
    entry, also when the entry is a nested FileStructure. -/
def FileStructure.getitem_single (f : FileStructure) (key : Str) : Except Err Str :=
  if key = [] ∨ key = ['/'] then .ok f.path
  else
    match dictLookup f.dict_dir key with
    | none => .error .keyError
    | some c => .ok (_as_path c)

/-- One `path_or_file_structure[filename]` subscript of the loop in
    __getitem__ (lines 441-442).  `filename` comes from split("/") and so
    contains no slash; on a FileStructure operand the recursive __getitem__
    therefore takes exactly the branches covered by `getitem_single` and
    returns a Path.  A Path operand is not subscriptable: TypeError. -/
def subscriptChild : Ch → Str → Except Err Ch
  | .inl _, _ => .error .typeError
  | .inr f, k => (f.getitem_single k).map Sum.inl

/-- FileStructure.__getitem__ (lines 416-446). -/
def FileStructure.getitem (f : FileStructure) (key : Str) : Except Err Str :=
  if key = [] ∨ key = ['/'] then .ok f.path
  else do
    let key ← stripSlashesKey key
    if '/' ∈ key then do
      let filenames := splitOnChar '/' key
      let c ← filenames.foldlM subscriptChild (Sum.inr f)
      return _as_path c
    else f.getitem_single key

/-- FileStructure.__truediv__ (lines 448-450): identical to __getitem__. -/
def FileStructure.truediv (f : FileStructure) (s : Str) : Except Err Str :=
  f.getitem s

/- ---------------------------------------------------------------------
   The parser (FileStructure.__init__ with lazy_commands=True, i.e. tree
   construction without running commands; _process_lines and its nested
   helpers).  The recursive construction of nested FileStructures from the
   captured sub-block text ("\n".join followed by splitlines is the
   identity on newline-free lines, so we pass the line list directly) is
   driven by a fuel parameter.
   --------------------------------------------------------------------- -/

/-- _remove_comments (lines 61-65): cut each line at its first '#'. -/
def _remove_comments (lines : List Str) : List Str :=
  lines.map (fun l => l.takeWhile (· ≠ '#'))

def isBlankLine (l : Str) : Bool := pyStrip l = []

/-- _remove_empty_lines (lines 68-73): drop leading and trailing blank
    lines; on an all-blank (or empty) input the Python while loop indexes
    an empty list: IndexError. -/
def _remove_empty_lines (lines : List Str) : Except Err (List Str) :=
  let l1 := lines.dropWhile isBlankLine
  if l1 = [] then .error .indexError
  else .ok ((l1.reverse.dropWhile isBlankLine).reverse)

/-- Python str.rindex(" "): index of the last space, ValueError if none. -/
def rindexSpace (s : Str) : Option Nat :=
  match s.reverse.findIdx? (· = ' ') with
  | none => none
  | some j => some (s.length - 1 - j)

/-- _remove_trailing_slash_if_exists (lines 76-79). -/
def _remove_trailing_slash_if_exists (s : Str) : Str :=
  if s.getLast? = some '/' then s.dropLast else s

def quoteChar1 : Char := Char.ofNat 39

def quoteChar2 : Char := Char.ofNat 34

/-- _remove_enclosing_quotation_marks (lines 82-87): the end check runs on
    the string after the front strip, exactly as in the source. -/
def _remove_enclosing_quotation_marks (s : Str) : Str :=
  let s := if s.head? = some quoteChar1 ∨ s.head? = some quoteChar2 then s.drop 1 else s
  if s.getLast? = some quoteChar1 ∨ s.getLast? = some quoteChar2 then s.dropLast else s

/-- FileStructure._parse_normal_line (lines 173-186). -/
def FileStructure.parse_normal_line (line : Str) : Except Err (Str × Option FileCommand) :=
  if line.getLast? = some '>' then
    match rindexSpace line with
    | none => .error .valueError
    | some i =>
      let filename := pyStrip (line.take i)
      let command_str := pyStrip (line.drop (i + 1))
      match FileCommand.from_str command_str with
      | none => .error .keyError
      | some c => .ok (_remove_trailing_slash_if_exists filename, some c)
  else .ok (_remove_trailing_slash_if_exists line, none)

/-- FileStructure._parse_file_structure_command_line (lines 188-192). -/
def FileStructure.parse_fsc_line (line : Str) : Except Err FileStructureCommand :=
  if ("<<".toList).isPrefixOf line then
    match FileStructureCommand.from_str line with
    | none => .error .keyError
    | some c => .ok c
  else .error .assertFail

/-- calc_indent_length (lines 196-202): leading-space difference of the
    first two lines, which must be strictly positive. -/
def calc_indent_length (lines : List Str) : Except Err Int :=
  match lines with
  | first :: second :: _ =>
    let d : Int := (numLeading second : Int) - (numLeading first : Int)
    if d > 0 then .ok d else .error .assertFail
  | _ => .error .indexError

/-- calc_num_indents (lines 209-220). -/
def calc_num_indents (line : Str) (numLead : Nat) (indent_length : Int)
    (prev_num_indents : Int) (prev_is_ordinary_file : Bool) : Except Err Int :=
  let num_spaces : Int := (numLeading line : Int) - (numLead : Int)
  if num_spaces > 0 then
    if Int.emod num_spaces indent_length = 0 then
      let num_indents := Int.fdiv num_spaces indent_length
      if prev_is_ordinary_file then
        if num_indents ≤ prev_num_indents then
          if num_indents ≠ 0 then .ok num_indents else .error .assertFail
        else .error .assertFail
      else
        if num_indents ≤ prev_num_indents + 1 then
          if num_indents ≠ 0 then .ok num_indents else .error .assertFail
        else .error .assertFail
    else .error .assertFail
  else .error .assertFail

/-- process_line_block (lines 224-236), on the lines after the current one:
    scan forward while the floor-divided indent count exceeds the current
    one, returning the captured block and the number of lines consumed. -/
def process_line_block (rest : List Str) (num_indents : Int) (numLead : Nat)
    (indent_length : Int) : List Str × Nat :=
  match rest with
  | [] => ([], 0)
  | cur :: rest' =>
    let sp : Int := (numLeading cur : Int) - (numLead : Int)
    let ni := Int.fdiv sp indent_length
    if ni ≤ num_indents then ([], 0)
    else
      let (blk, n) := process_line_block rest' num_indents numLead indent_length
      (cur :: blk, n + 1)

def spacesN (n : Nat) : Str := List.replicate n ' '

/-- str(Path(a) / b): path division, plain for slash-normalized operands. -/
def pathDiv (a b : Str) : Str := a ++ '/' :: b

def cmdSuffix : Option FileCommand → Str
  | none => []
  | some c => ' ' :: c.value

/-- The synthetic header line for a nested block (lines 261 and 287):
    leading spaces, the child path, and the delegated command token. -/
def mkHeader (numLead : Nat) (indent_length : Int) (p : Str)
    (cmd : Option FileCommand) : Str :=
  spacesN (numLead + indent_length.toNat) ++ p ++ cmdSuffix cmd

def lbraceChar : Char := Char.ofNat 123

def rbraceChar : Char := Char.ofNat 125

/-- line.replace("{", "[").replace("}", "]"). -/
def replaceBraces (s : Str) : Str :=
  s.map (fun c => if c = lbraceChar then '[' else if c = rbraceChar then ']' else c)

/-- The mutable per-directory parsing state of _process_lines: the structure
    command slot and the three child collections. -/
structure PState where
  scmd : Option FileStructureCommand
  list_dir : List Ch
  list_cmds : List (Option FileCommand)
  dict : List (Str × Ch)

/-- The two recursive entry points of the parser: constructing a
    FileStructure from a line list (__init__) and the scanning loop of
    _process_lines from a given line index. -/
inductive PIn where
  | top (lines : List Str)
  | loop (main_dir : Str) (lines : List Str) (numLead : Nat) (indent_length : Int)
         (line_no : Nat) (prev_num_indents : Int) (prev_is_ordinary_file : Bool)
         (st : PState)

inductive POut where
  | fs (f : FileStructure)
  | pst (st : PState)

/-- The parser.  `.top lines` mirrors FileStructure.__init__ (with
    lazy_commands=True): preprocessing, the root-line checks, and the call
    into the scanning loop; `.loop ...` mirrors the while loop of
    _process_lines with process_line inlined.  `Err.bugErr` marks branches
    that are unreachable (a `.top` call always produces `.fs`, a `.loop`
    call always produces `.pst`, and preprocessing returns a non-empty
    list). -/
def parseStep : Nat → PIn → Except Err POut
  | 0, _ => .error .outOfFuel
  | fuel + 1, .top lines0 =>
    let lines1 := _remove_comments lines0
    match _remove_empty_lines lines1 with
    | .error e => .error e
    | .ok lines =>
      match lines with
      | [] => .error .bugErr
      | l0 :: _ =>
        let first_line := pyStrip l0
        if (">>".toList).isSuffixOf first_line then .error .assertFail
        else
          match FileStructure.parse_normal_line first_line with
          | .error e => .error e
          | .ok (main_dir_path, main_dir_file_command) =>
            if _is_seemingly_dir main_dir_path then
              if lines.length > 1 then
                match calc_indent_length lines with
                | .error e => .error e
                | .ok il =>
                  match parseStep fuel
                      (.loop main_dir_path lines (numLeading l0) il 1 0 false
                        ⟨none, [], [], []⟩) with
                  | .error e => .error e
                  | .ok (.fs _) => .error .bugErr
                  | .ok (.pst st) =>
                    .ok (.fs (.mk main_dir_path main_dir_file_command st.scmd
                          st.list_dir st.list_cmds st.dict false))
              else
                .ok (.fs (.mk main_dir_path main_dir_file_command none [] [] [] false))
            else .error .assertFail
  | fuel + 1, .loop md lines nl il i prevNI prevOrd st =>
    if h : i < lines.length then
      let rawLine := lines.get ⟨i, h⟩
      match calc_num_indents rawLine nl il prevNI prevOrd with
      | .error e => .error e
      | .ok ni =>
        if ni = 1 then
          let line := pyStrip rawLine
          if (">>".toList).isSuffixOf line then
            match FileStructure.parse_fsc_line line with
            | .error e => .error e
            | .ok c =>
              match st.scmd with
              | some _ => .error .assertFail
              | none =>
                parseStep fuel (.loop md lines nl il (i + 1) ni true
                  ⟨some c, st.list_dir, st.list_cmds, st.dict⟩)
          else if ('[' ∈ line ∧ ']' ∈ line) ∨ (lbraceChar ∈ line ∧ rbraceChar ∈ line) then
            let lineR := replaceBraces line
            match FileStructure.parse_normal_line lineR with
            | .error e => .error e
            | .ok (filenames_str, file_command) =>
              match filenames_str.head?, filenames_str.getLast? with
              | some hch, some lch =>
                if hch = '[' ∧ lch = ']' then
                  let filenames := (splitOnChar ',' ((filenames_str.drop 1).dropLast)).map
                    (fun f => _remove_trailing_slash_if_exists
                      (pyStrip (_remove_enclosing_quotation_marks (pyStrip f))))
                  let new_paths := filenames.map (pathDiv md)
                  if filenames.all _is_seemingly_dir ∨
                     filenames.all (fun f => !(_is_seemingly_dir f)) then
                    match filenames with
                    | [] => .error .bugErr
                    | f0 :: _ =>
                      if _is_seemingly_dir f0 then
                        let pr := process_line_block (lines.drop (i + 1)) ni nl il
                        match new_paths.mapM (fun p =>
                            (match parseStep fuel (.top (mkHeader nl il p file_command :: pr.1)) with
                            | Except.error e => Except.error e
                            | Except.ok (POut.fs g) => Except.ok g
                            | Except.ok (POut.pst _) => Except.error Err.bugErr :
                              Except Err FileStructure)) with
                        | .error e => .error e
                        | .ok children =>
                          parseStep fuel (.loop md lines nl il (i + 1 + pr.2) ni false
                            ⟨st.scmd,
                             st.list_dir ++ children.map Sum.inr,
                             st.list_cmds ++ filenames.map (fun _ => none),
                             ((filenames.zip (children.map Sum.inr)).foldl
                               (fun d kv => kv :: d) st.dict)⟩)
                      else
                        parseStep fuel (.loop md lines nl il (i + 1) ni true
                          ⟨st.scmd,
                           st.list_dir ++ new_paths.map Sum.inl,
                           st.list_cmds ++ filenames.map (fun _ => file_command),
                           ((filenames.zip (new_paths.map Sum.inl)).foldl
                             (fun d kv => kv :: d) st.dict)⟩)
                  else .error .assertFail
                else .error .assertFail
              | _, _ => .error .indexError
          else
            match FileStructure.parse_normal_line line with
            | .error e => .error e
            | .ok (filename, file_command) =>
              let new_path := pathDiv md filename
              if _is_seemingly_dir new_path then
                let pr := process_line_block (lines.drop (i + 1)) ni nl il
                match parseStep fuel (.top (mkHeader nl il new_path file_command :: pr.1)) with
                | .error e => .error e
                | .ok (.pst _) => .error .bugErr
                | .ok (.fs g) =>
                  parseStep fuel (.loop md lines nl il (i + 1 + pr.2) ni false
                    ⟨st.scmd, st.list_dir ++ [Sum.inr g], st.list_cmds ++ [none],
                     (filename, Sum.inr g) :: st.dict⟩)
              else
                parseStep fuel (.loop md lines nl il (i + 1) ni true
                  ⟨st.scmd, st.list_dir ++ [Sum.inl new_path], st.list_cmds ++ [file_command],
                   (filename, Sum.inl new_path) :: st.dict⟩)
        else .error .assertFail
    else .ok (.pst st)

/-- parse(text) -> Structure: FileStructure(text, lazy_commands=True),
    taking the already split line list. -/
def FileStructure.parse (fuel : Nat) (lines : List Str) : Except Err FileStructure :=
  match parseStep fuel (.top lines) with
  | .ok (.fs f) => .ok f
  | .ok (.pst _) => .error .bugErr
  | .error e => .error e

instance {ε α : Type} [DecidableEq ε] [DecidableEq α] : DecidableEq (Except ε α) := fun a b =>
  match a, b with
  | .ok x, .ok y => if h : x = y then isTrue (by rw [h]) else isFalse (by simp [h])
  | .error e, .error e2 => if h : e = e2 then isTrue (by rw [h]) else isFalse (by simp [h])
  | .ok _, .error _ => isFalse (by simp)
  | .error _, .ok _ => isFalse (by simp)

/- ---------------------------------------------------------------------
   The filesystem model and the command engine (reconciliation).
   A path is a list of path segments; the disk records which directory
   paths and which file paths currently exist.  The library compares and
   removes paths segment-wise (pathlib equality, shutil.rmtree), which the
   segment representation captures.
   --------------------------------------------------------------------- -/

abbrev Pth := List Str

/-- Path(p) for a path string p: its '/'-segments. -/
def segsOf (p : Str) : Pth := splitOnChar '/' p

structure Disk where
  dirs : List Pth
  files : List Pth
  deriving DecidableEq, Repr

/-- os.path.exists / Path.exists. -/
abbrev Disk.pexists (d : Disk) (p : Pth) : Prop := p ∈ d.dirs ∨ p ∈ d.files

def Disk.entries (d : Disk) : List Pth := d.dirs ++ d.files

/-- os.listdir(p): the names of the entries directly under p. -/
def Disk.listNames (d : Disk) (p : Pth) : List Str :=
  (d.entries.filter (fun q => decide (q.dropLast = p ∧ q ≠ []))).filterMap List.getLast?

/-- os.rmdir(p): remove the (empty) directory p. -/
def Disk.rmdir (d : Disk) (p : Pth) : Disk :=
  ⟨d.dirs.filter (fun q => decide (q ≠ p)), d.files⟩

/-- os.remove(p): remove the file p. -/
def Disk.removeFile (d : Disk) (p : Pth) : Disk :=
  ⟨d.dirs, d.files.filter (fun q => decide (q ≠ p))⟩

/-- shutil.rmtree(p): remove p and everything below it. -/
def Disk.rmtree (d : Disk) (p : Pth) : Disk :=
  ⟨d.dirs.filter (fun q => decide (¬ p <+: q)),
   d.files.filter (fun q => decide (¬ p <+: q))⟩

/-- The nonempty path p and all its ancestors. -/
def pthAncestors (p : Pth) : List Pth :=
  (List.range p.length).map (fun i => p.take (i + 1))

/-- os.makedirs(p): create directory p together with any missing parent
    directories; fails if a needed name exists as a file. -/
def Disk.makedirs (d : Disk) (p : Pth) : Except Err Disk :=
  if (pthAncestors p).any (fun q => decide (q ∈ d.files)) then .error .osError
  else .ok ⟨d.dirs ++ (pthAncestors p).filter (fun q => decide (q ∉ d.dirs)), d.files⟩

/-- open(p, "w").close(): create an empty file; its parent directory must
    exist (the empty parent is the working directory). -/
def Disk.createFile (d : Disk) (p : Pth) : Except Err Disk :=
  if p.dropLast = [] ∨ p.dropLast ∈ d.dirs then .ok ⟨d.dirs, d.files ++ [p]⟩
  else .error .osError

/-- Runtime state: the disk plus the stream of answers the operator gives
    at confirmation prompts (an empty stream behaves like the default
    affirmative answer). -/
structure St where
  disk : Disk
  answers : List Bool
  deriving DecidableEq, Repr

def popAnswer : List Bool → Bool × List Bool
  | [] => (true, [])
  | a :: r => (a, r)

/-- _remove (file_structure.py lines 17-29).  Note the source's behaviour
    on a non-empty directory with prompting disabled: the `if prompt:`
    block is skipped entirely and nothing is removed.  Declining the
    prompt models exit(1).  Removing a path that does not exist raises
    OSError (os.remove on a missing path). -/
def _remove (p : Pth) (prompt : Bool) (st : St) : Option Err × St :=
  if p ∈ st.disk.dirs then
    if st.disk.listNames p = [] then (none, { st with disk := st.disk.rmdir p })
    else if prompt then
      if (popAnswer st.answers).1 then (none, ⟨st.disk.rmtree p, (popAnswer st.answers).2⟩)
      else (some .userAbort, { st with answers := (popAnswer st.answers).2 })
    else (none, st)
  else if p ∈ st.disk.files then (none, { st with disk := st.disk.removeFile p })
  else (some .osError, st)

/-- _absent_but_create (lines 48-53): assert absent, then create a fresh
    directory (no dotted suffix) or a fresh empty file. -/
def _absent_but_create (pstr : Str) (st : St) : Option Err × St :=
  let p := segsOf pstr
  if st.disk.pexists p then (some .assertFail, st)
  else if _is_seemingly_dir pstr then
    match st.disk.makedirs p with
    | .ok d => (none, { st with disk := d })
    | .error e => (some e, st)
  else
    match st.disk.createFile p with
    | .ok d => (none, { st with disk := d })
    | .error e => (some e, st)

/-- _present_but_remove (lines 56-58): assert present, then _remove. -/
def _present_but_remove (pstr : Str) (prompt : Bool) (st : St) : Option Err × St :=
  if st.disk.pexists (segsOf pstr) then _remove (segsOf pstr) prompt st
  else (some .assertFail, st)

/-- FileCommand.run (lines 106-134). -/
def FileCommand.run (c : FileCommand) (pstr : Str) (prompt : Bool) (st : St) :
    Option Err × St :=
  match c with
  | .present =>
    if st.disk.pexists (segsOf pstr) then (none, st) else (some .assertFail, st)
  | .absent =>
    if st.disk.pexists (segsOf pstr) then (some .assertFail, st) else (none, st)
  | .present_but_remove => _present_but_remove pstr prompt st
  | .present_but_recreate =>
    match _present_but_remove pstr prompt st with
    | (none, st1) => _absent_but_create pstr st1
    | r => r
  | .absent_but_create => _absent_but_create pstr st
  | .create =>
    if st.disk.pexists (segsOf pstr) then
      match _present_but_remove pstr prompt st with
      | (none, st1) => _absent_but_create pstr st1
      | r => r
    else _absent_but_create pstr st
  | .create_if_absent =>
    if st.disk.pexists (segsOf pstr) then (none, st)
    else _absent_but_create pstr st

/-- FileStructureCommand.run (lines 149-165): no-op when the path does not
    exist; os.listdir then raises NotADirectoryError when the path exists
    but is not a directory, and otherwise yields the disk entries directly
    under the path, which are compared with the declared children's paths.
    The Python code iterates a set difference; we iterate the listdir
    order, which fixes the (there unspecified) removal order. -/
def FileStructureCommand.run (c : FileStructureCommand) (pstr : Str)
    (paths : List Str) (prompt : Bool) (st : St) : Option Err × St :=
  let base := segsOf pstr
  if st.disk.pexists base then
    if base ∈ st.disk.dirs then
      let all_files := (st.disk.listNames base).map (fun n => base ++ [n])
      let everything_else := all_files.filter (fun q => decide (q ∉ paths.map segsOf))
      match c with
      | .that_is_all =>
        if everything_else = [] then (none, st) else (some .assertFail, st)
      | .remove_everything_else =>
        everything_else.foldl (fun acc q =>
          match acc with
          | (some e, st') => (some e, st')
          | (none, st') => _remove q prompt st') (none, st)
    else (some .osError, st)
  else (none, st)

/-- Execution events: each invocation of FileStructureCommand.run or
    FileCommand.run during reconciliation, with its target path. -/
inductive Ev where
  | scmdRun (c : FileStructureCommand) (p : Str)
  | cmdRun (c : FileCommand) (p : Str)
  deriving DecidableEq, Repr

/-- `child if isinstance(child, Path) else child.path()` (line 362). -/
def childPath : Ch → Str
  | .inl p => p
  | .inr g => g.path

/-- FileStructure.do (lines 358-380).  The executed flag is checked before
    anything else; on success it is set.  A failure inside the child loop
    leaves the flag unset but keeps the filesystem effects and the flags of
    nested children that completed, exactly as the Python exception does.
    The fold keeps processing pairs after an error as the identity, which
    models the aborted loop: untouched children, no further events. -/
def FileStructure.runDo : Nat → FileStructure → Bool → St →
    Option Err × FileStructure × St × List Ev
  | 0, f, _, st =>
    if f.commands_run then (none, f, st, []) else (some .outOfFuel, f, st, [])
  | fuel + 1, f, prompt, st =>
    if f.commands_run then (none, f, st, [])
    else
      let r1 : Option Err × St × List Ev :=
        match f.main_dir_file_structure_command with
        | some sc =>
          let paths := f.list_dir.map childPath
          let r := FileStructureCommand.run sc f.path paths prompt st
          (r.1, r.2, [.scmdRun sc f.path])
        | none => (none, st, [])
      match r1 with
      | (some e, st1, tr1) => (some e, f, st1, tr1)
      | (none, st1, tr1) =>
        let r2 : Option Err × St × List Ev :=
          match f.main_dir_file_command with
          | some c =>
            let r := FileCommand.run c f.path prompt st1
            (r.1, r.2, [.cmdRun c f.path])
          | none => (none, st1, [])
        match r2 with
        | (some e, st2, tr2) => (some e, f, st2, tr1 ++ tr2)
        | (none, st2, tr2) =>
          let k := min f.list_dir.length f.list_dir_file_commands.length
          let out := (f.list_dir.zip f.list_dir_file_commands).foldl
            (fun acc cm =>
              match acc with
              | (some e, done, stA, trA) => (some e, done ++ [cm.1], stA, trA)
              | (none, done, stA, trA) =>
                match cm.1, cm.2 with
                | .inl p, some fc =>
                  let r := FileCommand.run fc p prompt stA
                  (r.1, done ++ [Sum.inl p], r.2, trA ++ [Ev.cmdRun fc p])
                | .inl p, none => (none, done ++ [Sum.inl p], stA, trA)
                | .inr g, some _ => (some Err.assertFail, done ++ [Sum.inr g], stA, trA)
                | .inr g, none =>
                  let r := FileStructure.runDo fuel g prompt stA
                  (r.1, done ++ [Sum.inr r.2.1], r.2.2.1, trA ++ r.2.2.2))
            ((none, [], st2, []) : Option Err × List Ch × St × List Ev)
          match out with
          | (none, done, st3, tr3) =>
            (none,
             .mk f.main_dir f.main_dir_file_command f.main_dir_file_structure_command
               (done ++ f.list_dir.drop k) f.list_dir_file_commands f.dict_dir true,
             st3, tr1 ++ tr2 ++ tr3)
          | (some e, done, st3, tr3) =>
            (some e,
             .mk f.main_dir f.main_dir_file_command f.main_dir_file_structure_command
               (done ++ f.list_dir.drop k) f.list_dir_file_commands f.dict_dir false,
             st3, tr1 ++ tr2 ++ tr3)

/-- The body of the per-child loop of FileStructure.do (lines 368-378): the
    step the fold in runDo applies to each (child, command) pair that is
    reached without a pending error. -/
def runChildStep (fuel : Nat) (c : Ch) (m : Option FileCommand) (prompt : Bool)
    (st : St) : Option Err × Ch × St × List Ev :=
  match c, m with
  | .inl p, some fc =>
    let r := FileCommand.run fc p prompt st
    (r.1, .inl p, r.2, [.cmdRun fc p])
  | .inl p, none => (none, .inl p, st, [])
  | .inr g, some _ => (some .assertFail, .inr g, st, [])
  | .inr g, none =>
    let r := FileStructure.runDo fuel g prompt st
    (r.1, .inr r.2.1, r.2.2.1, r.2.2.2)

/- ---------------------------------------------------------------------
   Concrete structures used by the claims.
   --------------------------------------------------------------------- -/

def emptyFS : FileStructure := .mk [] none none [] [] [] false

def chIsNode : Ch → Bool
  | .inl _ => false
  | .inr _ => true

/-- The end-to-end demo structure: root T with a nested directory xyz
    holding leaf x.txt, and leaf a.mp4. -/
def demoLines : List Str :=
  ["T".toList, "    xyz".toList, "        x.txt".toList, "    a.mp4".toList]

def demoFS : FileStructure :=
  match FileStructure.parse 20 demoLines with
  | .ok f => f
  | .error _ => emptyFS

/-- C1: the claim states that index(S, k) on a single-segment key naming a
    declared Directory child returns the nested Directory node itself.  The
    code disagrees: the single-segment branch of __getitem__ (lines 444-446)
    applies `_as_path` to the dictionary entry unconditionally, so the call
    returns the directory's path, not the node — even though the entry in
    the name map is the nested FileStructure, and the repository's demo
    documentation (demo.py lines 56-58, 64-66) promises the node.  The leaf
    half of the claim does hold: index on a leaf key returns the leaf path.
    This theorem evaluates the embedded code at the failing input. -/
theorem c1_index_directory_child_returns_path :
    (FileStructure.parse 20 demoLines).isOk = true ∧
    (dictLookup demoFS.dict_dir "xyz".toList).map chIsNode = some true ∧
    demoFS.getitem "xyz".toList = Except.ok "T/xyz".toList ∧
    (dictLookup demoFS.dict_dir "a.mp4".toList).map chIsNode = some false ∧
    demoFS.getitem "a.mp4".toList = Except.ok "T/a.mp4".toList :=
  ⟨rfl, rfl, rfl, rfl, rfl⟩

/-- C2: the claim states that divide(root, "xyz/x.txt") returns T/xyz/x.txt
    for a declared directory xyz holding leaf x.txt.  In the code, the
    multi-segment loop of __getitem__ rebinds the accumulator to the result
    of a subscript, and every subscript returns a Path (because of the
    unconditional `_as_path`, see C1); the second iteration then subscripts
    a Path, which raises TypeError.  Both accessors fail on every
    multi-segment key even when all names are declared.  This theorem
    evaluates the embedded code at the failing input; the third conjunct
    checks the claim's premise (xyz is a declared Directory child whose name
    map declares x.txt with path T/xyz/x.txt). -/
theorem c2_divide_multisegment_raises_type_error :
    demoFS.getitem "xyz/x.txt".toList = Except.error Err.typeError ∧
    demoFS.truediv "xyz/x.txt".toList = Except.error Err.typeError ∧
    ((dictLookup demoFS.dict_dir "xyz".toList).map (fun c =>
        match c with
        | Sum.inl _ => none
        | Sum.inr g => (dictLookup g.dict_dir "x.txt".toList).map _as_path)) =
      some (some "T/xyz/x.txt".toList) :=
  ⟨rfl, rfl, rfl⟩

/-- T is a directory containing the non-empty directory T/d (holding file
    T/d/f.txt). -/
def c3St : St :=
  ⟨⟨[["T".toList], ["T".toList, "d".toList]],
    [["T".toList, "d".toList, "f.txt".toList]]⟩, []⟩

/-- C3: the claim states that with confirmation suppressed, a removing
    command deletes a non-empty directory without prompting and a
    subsequent create step succeeds.  In `_remove` (lines 17-29) the
    non-empty-directory branch only acts `if prompt:`; with prompt=False it
    silently does nothing, so PRESENT_BUT_REMOVE succeeds without removing
    anything, and the create step of CREATE / PRESENT_BUT_RECREATE then
    fails its absence assertion.  This contradicts the documented command
    semantics ("It exists & Remove it", "If it exists, create it from
    scratch", lines 95-98).  The last two conjuncts check the halves of the
    claim the code does satisfy: declining the prompt aborts the run, and
    an affirmative answer removes the tree. -/
theorem c3_suppressed_confirmation_skips_removal :
    FileCommand.run .present_but_remove "T/d".toList false c3St = (none, c3St) ∧
    (FileCommand.run .create "T/d".toList false c3St).1 = some Err.assertFail ∧
    (FileCommand.run .present_but_recreate "T/d".toList false c3St).1 = some Err.assertFail ∧
    (FileCommand.run .present_but_remove "T/d".toList true ⟨c3St.disk, [false]⟩).1 =
      some Err.userAbort ∧
    FileCommand.run .present_but_remove "T/d".toList true ⟨c3St.disk, [true]⟩ =
      (none, ⟨⟨[["T".toList]], []⟩, []⟩) := by
  refine ⟨by decide, by decide, by decide, by decide, by decide⟩

theorem runDo_flagged (fuel : Nat) (f : FileStructure) (prompt : Bool) (st : St)
    (h : f.commands_run = true) :
    FileStructure.runDo fuel f prompt st = (none, f, st, []) := by
  cases fuel <;> simp [FileStructure.runDo, h]

theorem runDo_success_flag (fuel : Nat) (f : FileStructure) (prompt : Bool) (st : St)
    (f' : FileStructure) (st' : St) (tr : List Ev)
    (h : FileStructure.runDo fuel f prompt st = (none, f', st', tr)) :
    f'.commands_run = true := by
  cases fuel with
  | zero =>
    by_cases hc : f.commands_run
    · simp only [FileStructure.runDo, hc, if_true] at h
      have h2 := congrArg (fun x => x.2.1.commands_run) h
      simp only at h2
      rw [← h2]; exact hc
    · simp [FileStructure.runDo, hc] at h
  | succ fuel =>
    by_cases hc : f.commands_run
    · simp only [FileStructure.runDo, hc, if_true] at h
      have h2 := congrArg (fun x => x.2.1.commands_run) h
      simp only at h2
      rw [← h2]; exact hc
    · simp only [FileStructure.runDo, hc, if_false, Bool.false_eq_true] at h
      split at h
      · exact absurd (congrArg (fun x => x.1) h) (by simp)
      · split at h
        · exact absurd (congrArg (fun x => x.1) h) (by simp)
        · split at h
          · have h2 := congrArg (fun x => x.2.1.commands_run) h
            simpa using h2.symm
          · exact absurd (congrArg (fun x => x.1) h) (by simp)

theorem runDo_error_flag (fuel : Nat) (f : FileStructure) (prompt : Bool) (st : St)
    (e : Err) (f' : FileStructure) (st' : St) (tr : List Ev)
    (h : FileStructure.runDo fuel f prompt st = (some e, f', st', tr)) :
    f'.commands_run = false ∧ f.commands_run = false := by
  by_cases hc : f.commands_run
  · rw [runDo_flagged fuel f prompt st hc] at h
    exact absurd (congrArg (fun x => x.1) h) (by simp)
  · refine ⟨?_, by simpa using hc⟩
    cases fuel with
    | zero =>
      simp only [FileStructure.runDo, hc, if_false, Bool.false_eq_true] at h
      have h2 := congrArg (fun x => x.2.1.commands_run) h
      simp only at h2
      rw [← h2]; simpa using hc
    | succ fuel =>
      simp only [FileStructure.runDo, hc, if_false, Bool.false_eq_true] at h
      split at h
      · have h2 := congrArg (fun x => x.2.1.commands_run) h
        simp only at h2
        rw [← h2]; simpa using hc
      · split at h
        · have h2 := congrArg (fun x => x.2.1.commands_run) h
          simp only at h2
          rw [← h2]; simpa using hc
        · split at h
          · exact absurd (congrArg (fun x => x.1) h) (by simp)
          · have h2 := congrArg (fun x => x.2.1.commands_run) h
            simpa using h2.symm

/-- C6: reconcile is idempotent: after a successful run the structure is
    marked executed, and because FileStructure.do returns immediately once
    the flag is set, any later call leaves the structure and the filesystem
    untouched, emits no command event, and cannot fail. -/
theorem c6_reconcile_idempotent (fuel : Nat) (f : FileStructure) (prompt : Bool)
    (st : St) (f' : FileStructure) (st' : St) (tr : List Ev)
    (h : FileStructure.runDo fuel f prompt st = (none, f', st', tr)) :
    f'.commands_run = true ∧
    ∀ (fuel2 : Nat) (prompt2 : Bool) (st2 : St),
      FileStructure.runDo fuel2 f' prompt2 st2 = (none, f', st2, []) := by
  have hf := runDo_success_flag fuel f prompt st f' st' tr h
  exact ⟨hf, fun fuel2 prompt2 st2 => runDo_flagged fuel2 f' prompt2 st2 hf⟩

/-- Root R (already on disk) declaring one leaf with CREATE_IF_ABSENT. -/
def c6Lines : List Str := ["R".toList, "    s.txt <6>".toList]

def c6FS : FileStructure :=
  match FileStructure.parse 10 c6Lines with
  | .ok f => f
  | .error _ => emptyFS

def c6St : St := ⟨⟨[["R".toList]], []⟩, []⟩

def c6Run := FileStructure.runDo 5 c6FS true c6St

/-- Witness for C6 at a concrete successful run. -/
theorem c6_reconcile_idempotent_witness :
    c6Run.2.1.commands_run = true ∧
    FileStructure.runDo 3 c6Run.2.1 false ⟨⟨[], []⟩, []⟩ =
      (none, c6Run.2.1, ⟨⟨[], []⟩, []⟩, []) := by
  have h : FileStructure.runDo 5 c6FS true c6St =
      (none, c6Run.2.1, c6Run.2.2.1, c6Run.2.2.2) := rfl
  have t := c6_reconcile_idempotent 5 c6FS true c6St c6Run.2.1 c6Run.2.2.1 c6Run.2.2.2 h
  exact ⟨t.1, t.2 3 false ⟨⟨[], []⟩, []⟩⟩

/-- Root T declaring directory A (CREATE_IF_ABSENT) holding leaf c.txt
    (ABSENT_BUT_CREATE), then leaf b.txt (PRESENT). -/
def c10Lines : List Str :=
  ["T".toList, "    A <6>".toList, "        c.txt <4>".toList, "    b.txt <0>".toList]

def c10FS : FileStructure :=
  match FileStructure.parse 20 c10Lines with
  | .ok f => f
  | .error _ => emptyFS

def c10St0 : St := ⟨⟨[], []⟩, []⟩

/-- First run on an empty disk: A and A/c.txt are created, then b.txt's
    PRESENT assertion fails. -/
def c10Run1 := FileStructure.runDo 10 c10FS true c10St0

/-- The state after the failed run, with T/b.txt now created externally. -/
def c10St2 : St :=
  ⟨⟨c10Run1.2.2.1.disk.dirs, c10Run1.2.2.1.disk.files ++ [["T".toList, "b.txt".toList]]⟩, []⟩

def c10Run2 := FileStructure.runDo 10 c10Run1.2.1 true c10St2

/-- C10 counterexample: the first run aborts at b.txt's PRESENT assertion
    after the nested directory A completed (creating T/A and T/A/c.txt) and
    was marked executed.  The claim says a subsequent reconcile call
    re-executes every command from the beginning, including those that
    already succeeded; but the second call's complete event trace contains
    only the PRESENT command on T/b.txt — the commands inside A are
    skipped — and the call succeeds, although re-executing c.txt's
    ABSENT_BUT_CREATE would necessarily fail (last conjunct). -/
theorem c10_counterexample_partial_rerun :
    c10Run1.1 = some Err.assertFail ∧
    c10Run1.2.1.commands_run = false ∧
    c10Run2.1 = none ∧
    c10Run2.2.2.2 = [Ev.cmdRun .present "T/b.txt".toList] ∧
    (FileCommand.run .absent_but_create "T/A/c.txt".toList true c10St2).1 =
      some Err.assertFail :=
  ⟨rfl, rfl, rfl, rfl, rfl⟩

/-- C10 amended: if a reconcile run aborts partway, the Structure itself is
    not marked executed, so a later call runs it again — but any node
    already marked executed (in particular a nested Directory child whose
    subtree completed during the failed run) is skipped entirely: its call
    is a no-op and its commands are not re-executed. -/
theorem c10_failed_run_not_marked (fuel : Nat) (f : FileStructure) (prompt : Bool)
    (st : St) (e : Err) (f' : FileStructure) (st' : St) (tr : List Ev)
    (h : FileStructure.runDo fuel f prompt st = (some e, f', st', tr)) :
    f'.commands_run = false ∧
    ∀ (fuel2 : Nat) (g : FileStructure) (prompt2 : Bool) (st2 : St),
      g.commands_run = true →
      FileStructure.runDo fuel2 g prompt2 st2 = (none, g, st2, []) := by
  exact ⟨(runDo_error_flag fuel f prompt st e f' st' tr h).1,
    fun fuel2 g prompt2 st2 hg => runDo_flagged fuel2 g prompt2 st2 hg⟩

/-- Witness for the amended C10 at the concrete failed run. -/
theorem c10_failed_run_not_marked_witness :
    c10Run1.2.1.commands_run = false ∧
    FileStructure.runDo 4 (FileStructure.mk "X".toList none none [] [] [] true)
      false c10St0 =
      (none, FileStructure.mk "X".toList none none [] [] [] true, c10St0, []) := by
  have h : FileStructure.runDo 10 c10FS true c10St0 =
      (some Err.assertFail, c10Run1.2.1, c10Run1.2.2.1, c10Run1.2.2.2) := rfl
  have t := c10_failed_run_not_marked 10 c10FS true c10St0 Err.assertFail
    c10Run1.2.1 c10Run1.2.2.1 c10Run1.2.2.2 h
  exact ⟨t.1, t.2 4 (FileStructure.mk "X".toList none none [] [] [] true) false c10St0 rfl⟩

theorem splitOnChar_ne_nil (c : Char) (s : Str) : splitOnChar c s ≠ [] := by
  induction s with
  | nil => simp [splitOnChar]
  | cons x rest ih =>
    simp only [splitOnChar]
    split
    · simp
    · split
      · simp
      · simp

theorem segsOf_ne_nil (p : Str) : segsOf p ≠ [] := splitOnChar_ne_nil '/' p

/-- Prefix-closedness of a disk: every proper non-empty ancestor of an
    existing entry is an existing directory (stated over `q.inits` so the
    property is decidable on concrete disks). -/
def Disk.WF (d : Disk) : Prop :=
  ∀ q ∈ d.dirs ++ d.files, ∀ r ∈ q.inits, r ≠ [] → r ≠ q → r ∈ d.dirs

instance (d : Disk) : Decidable d.WF := by
  unfold Disk.WF; infer_instance

theorem self_mem_pthAncestors (p : Pth) (h : p ≠ []) : p ∈ pthAncestors p := by
  have hl : 0 < p.length := List.length_pos.mpr h
  refine List.mem_map.mpr ⟨p.length - 1, ?_, ?_⟩
  · exact List.mem_range.mpr (by omega)
  · rw [Nat.sub_add_cancel hl, List.take_length]

theorem mem_pthAncestors_length {p q : Pth} (h : q ∈ pthAncestors p) :
    q.length ≤ p.length := by
  obtain ⟨i, hi, rfl⟩ := List.mem_map.mp h
  simp [List.length_take]

/-- Fresh creation of a directory: with the path absent, no ancestor
    present as a file, and a prefix-closed disk, _absent_but_create
    succeeds, puts the directory and all its ancestors on disk, creates it
    empty, and leaves the files untouched. -/
theorem absent_but_create_dir_spec (st : St) (p : Str)
    (habs : ¬ st.disk.pexists (segsOf p))
    (hdir : _is_seemingly_dir p = true)
    (hanc : ∀ q ∈ pthAncestors (segsOf p), q ∉ st.disk.files)
    (hwf : st.disk.WF) :
    (_absent_but_create p st).1 = none ∧
    segsOf p ∈ (_absent_but_create p st).2.disk.dirs ∧
    (_absent_but_create p st).2.disk.listNames (segsOf p) = [] ∧
    (∀ q ∈ pthAncestors (segsOf p), q ∈ (_absent_but_create p st).2.disk.dirs) ∧
    (_absent_but_create p st).2.disk.files = st.disk.files := by
  have hany : ((pthAncestors (segsOf p)).any fun q => decide (q ∈ st.disk.files)) = false := by
    simp only [List.any_eq_false, decide_eq_true_eq]
    exact hanc
  have hmk : st.disk.makedirs (segsOf p) =
      .ok ⟨st.disk.dirs ++ (pthAncestors (segsOf p)).filter
        (fun q => decide (q ∉ st.disk.dirs)), st.disk.files⟩ := by
    simp [Disk.makedirs, hany]
  have hres : _absent_but_create p st =
      (none, { st with disk := ⟨st.disk.dirs ++ (pthAncestors (segsOf p)).filter
        (fun q => decide (q ∉ st.disk.dirs)), st.disk.files⟩ }) := by
    simp [_absent_but_create, habs, hdir, hmk]
  rw [hres]
  have hndir : segsOf p ∉ st.disk.dirs := fun hmem => habs (Or.inl hmem)
  refine ⟨rfl, ?_, ?_, ?_, rfl⟩
  · refine List.mem_append_right _ (List.mem_filter.mpr ⟨self_mem_pthAncestors _ (segsOf_ne_nil p), by simpa using hndir⟩)
  · -- the fresh directory is empty
    simp only [Disk.listNames, Disk.entries]
    rw [List.filter_eq_nil_iff.mpr, List.filterMap_nil]
    intro q hq
    simp only [decide_eq_true_eq, not_and, ne_eq]
    intro hdrop hqne
    -- q is a child of segsOf p
    have hqform : q = segsOf p ++ [q.getLast hqne] := by
      conv_lhs => rw [← List.dropLast_append_getLast hqne]
      rw [hdrop]
    have hpfx : segsOf p <+: q := ⟨[q.getLast hqne], hqform.symm⟩
    have hlen : q.length = (segsOf p).length + 1 := by
      rw [hqform]; simp
    rcases List.mem_append.mp hq with hq1 | hq1
    · rcases List.mem_append.mp hq1 with hq2 | hq2
      · -- q an old directory: prefix-closedness puts segsOf p in dirs
        exact hndir (hwf q (List.mem_append_left _ hq2) (segsOf p)
          ((List.mem_inits _ _).mpr hpfx) (segsOf_ne_nil p)
          (by intro he; rw [← he] at hlen; omega))
      · -- q an added ancestor: too short
        have := mem_pthAncestors_length (List.mem_of_mem_filter hq2)
        omega
    · -- q an old file
      exact hndir (hwf q (List.mem_append_right _ hq1) (segsOf p)
        ((List.mem_inits _ _).mpr hpfx) (segsOf_ne_nil p)
        (by intro he; rw [← he] at hlen; omega))
  · intro q hq
    by_cases hmem : q ∈ st.disk.dirs
    · exact List.mem_append_left _ hmem
    · exact List.mem_append_right _ (List.mem_filter.mpr ⟨hq, by simpa using hmem⟩)

theorem create_if_absent_present_noop (p : Str) (prompt : Bool) (st : St)
    (h : st.disk.pexists (segsOf p)) :
    FileCommand.run .create_if_absent p prompt st = (none, st) := by
  simp [FileCommand.run, h]

theorem create_absent_fresh (p : Str) (prompt : Bool) (st : St)
    (h : ¬ st.disk.pexists (segsOf p)) :
    FileCommand.run .create p prompt st = _absent_but_create p st ∧
    FileCommand.run .create_if_absent p prompt st = _absent_but_create p st := by
  constructor <;> simp [FileCommand.run, h]

theorem absent_but_create_file_spec (st : St) (p : Str)
    (habs : ¬ st.disk.pexists (segsOf p))
    (hfile : _is_seemingly_dir p = false)
    (hpar : (segsOf p).dropLast = [] ∨ (segsOf p).dropLast ∈ st.disk.dirs) :
    _absent_but_create p st =
      (none, ⟨⟨st.disk.dirs, st.disk.files ++ [segsOf p]⟩, st.answers⟩) := by
  simp [_absent_but_create, habs, hfile, Disk.createFile, hpar]

theorem create_existing_file (p : Str) (prompt : Bool) (st : St)
    (hf : segsOf p ∈ st.disk.files) (hnd : segsOf p ∉ st.disk.dirs) :
    FileCommand.run .create p prompt st =
      _absent_but_create p ⟨st.disk.removeFile (segsOf p), st.answers⟩ := by
  have hex : st.disk.pexists (segsOf p) := Or.inr hf
  have hpbr : _present_but_remove p prompt st =
      (none, ⟨st.disk.removeFile (segsOf p), st.answers⟩) := by
    simp [_present_but_remove, hex, _remove, hnd, hf]
  simp [FileCommand.run, hex, hpbr]

theorem create_existing_empty_dir (p : Str) (prompt : Bool) (st : St)
    (hd : segsOf p ∈ st.disk.dirs) (hemp : st.disk.listNames (segsOf p) = []) :
    FileCommand.run .create p prompt st =
      _absent_but_create p ⟨st.disk.rmdir (segsOf p), st.answers⟩ := by
  have hex : st.disk.pexists (segsOf p) := Or.inl hd
  have hpbr : _present_but_remove p prompt st =
      (none, ⟨st.disk.rmdir (segsOf p), st.answers⟩) := by
    simp [_present_but_remove, hex, _remove, hd, hemp]
  simp [FileCommand.run, hex, hpbr]

theorem create_nonempty_dir_noprompt (p : Str) (st : St)
    (hd : segsOf p ∈ st.disk.dirs) (hne : st.disk.listNames (segsOf p) ≠ []) :
    FileCommand.run .create p false st = (some Err.assertFail, st) := by
  have hex : st.disk.pexists (segsOf p) := Or.inl hd
  have hpbr : _present_but_remove p false st = (none, st) := by
    simp [_present_but_remove, hex, _remove, hd, hne]
  simp [FileCommand.run, hex, hpbr, _absent_but_create]

theorem create_nonempty_dir_confirmed (p : Str) (st : St)
    (hd : segsOf p ∈ st.disk.dirs) (hne : st.disk.listNames (segsOf p) ≠ [])
    (hyes : (popAnswer st.answers).1 = true) :
    FileCommand.run .create p true st =
      _absent_but_create p ⟨st.disk.rmtree (segsOf p), (popAnswer st.answers).2⟩ := by
  have hex : st.disk.pexists (segsOf p) := Or.inl hd
  have hpbr : _present_but_remove p true st =
      (none, ⟨st.disk.rmtree (segsOf p), (popAnswer st.answers).2⟩) := by
    simp [_present_but_remove, hex, _remove, hd, hne, hyes]
  simp [FileCommand.run, hex, hpbr]

/-- C8 (amended): CREATE_IF_ABSENT is a no-op on an existing path and
    creates fresh on an absent one; CREATE on an absent path creates fresh;
    fresh creation produces an empty directory with all missing ancestors
    established (and files untouched) when the name has no dotted suffix,
    and an empty file otherwise; CREATE on an existing path removes it via
    the removal protocol before creating fresh: directly for a file or an
    empty directory, while a non-empty directory needs an affirmative
    confirmation — with confirmation suppressed the non-empty directory is
    left in place and the subsequent fresh-creation assertion fails (this
    last point is where the original claim's unconditional "deletes p
    first" fails, see the counterexample). -/
theorem c8_create_semantics :
    (∀ (p : Str) (prompt : Bool) (st : St), st.disk.pexists (segsOf p) →
      FileCommand.run .create_if_absent p prompt st = (none, st)) ∧
    (∀ (p : Str) (prompt : Bool) (st : St), ¬ st.disk.pexists (segsOf p) →
      FileCommand.run .create p prompt st = _absent_but_create p st ∧
      FileCommand.run .create_if_absent p prompt st = _absent_but_create p st) ∧
    (∀ (st : St) (p : Str), ¬ st.disk.pexists (segsOf p) → _is_seemingly_dir p = true →
      (∀ q ∈ pthAncestors (segsOf p), q ∉ st.disk.files) → st.disk.WF →
      (_absent_but_create p st).1 = none ∧
      segsOf p ∈ (_absent_but_create p st).2.disk.dirs ∧
      (_absent_but_create p st).2.disk.listNames (segsOf p) = [] ∧
      (∀ q ∈ pthAncestors (segsOf p), q ∈ (_absent_but_create p st).2.disk.dirs) ∧
      (_absent_but_create p st).2.disk.files = st.disk.files) ∧
    (∀ (st : St) (p : Str), ¬ st.disk.pexists (segsOf p) → _is_seemingly_dir p = false →
      ((segsOf p).dropLast = [] ∨ (segsOf p).dropLast ∈ st.disk.dirs) →
      _absent_but_create p st =
        (none, ⟨⟨st.disk.dirs, st.disk.files ++ [segsOf p]⟩, st.answers⟩)) ∧
    (∀ (p : Str) (prompt : Bool) (st : St), segsOf p ∈ st.disk.files →
      segsOf p ∉ st.disk.dirs →
      FileCommand.run .create p prompt st =
        _absent_but_create p ⟨st.disk.removeFile (segsOf p), st.answers⟩) ∧
    (∀ (p : Str) (prompt : Bool) (st : St), segsOf p ∈ st.disk.dirs →
      st.disk.listNames (segsOf p) = [] →
      FileCommand.run .create p prompt st =
        _absent_but_create p ⟨st.disk.rmdir (segsOf p), st.answers⟩) ∧
    (∀ (p : Str) (st : St), segsOf p ∈ st.disk.dirs →
      st.disk.listNames (segsOf p) ≠ [] →
      FileCommand.run .create p false st = (some Err.assertFail, st)) ∧
    (∀ (p : Str) (st : St), segsOf p ∈ st.disk.dirs →
      st.disk.listNames (segsOf p) ≠ [] → (popAnswer st.answers).1 = true →
      FileCommand.run .create p true st =
        _absent_but_create p ⟨st.disk.rmtree (segsOf p), (popAnswer st.answers).2⟩) :=
  ⟨create_if_absent_present_noop, create_absent_fresh, absent_but_create_dir_spec,
   absent_but_create_file_spec, create_existing_file, create_existing_empty_dir,
   create_nonempty_dir_noprompt, create_nonempty_dir_confirmed⟩

/-- Directory Q on an otherwise empty disk. -/
def c8WSt : St := ⟨⟨[["Q".toList]], []⟩, []⟩

/-- Witness for the amended C8 at concrete inputs. -/
theorem c8_create_semantics_witness :
    FileCommand.run .create_if_absent "Q".toList false c8WSt = (none, c8WSt) ∧
    (_absent_but_create "Q/nd".toList c8WSt).1 = none ∧
    segsOf "Q/nd".toList ∈ (_absent_but_create "Q/nd".toList c8WSt).2.disk.dirs ∧
    (_absent_but_create "Q/nd".toList c8WSt).2.disk.listNames (segsOf "Q/nd".toList) = [] ∧
    FileCommand.run .create "Q/f.txt".toList true
        ⟨⟨[["Q".toList]], [segsOf "Q/f.txt".toList]⟩, []⟩ =
      _absent_but_create "Q/f.txt".toList
        ⟨(Disk.mk [["Q".toList]] [segsOf "Q/f.txt".toList]).removeFile
          (segsOf "Q/f.txt".toList), []⟩ := by
  obtain ⟨h1, _, h3, _, h5, _, _, _⟩ := c8_create_semantics
  have a3 := h3 c8WSt "Q/nd".toList (by decide) (by decide) (by decide) (by decide)
  exact ⟨h1 "Q".toList false c8WSt (by decide), a3.1, a3.2.1, a3.2.2.1,
    h5 "Q/f.txt".toList true ⟨⟨[["Q".toList]], [segsOf "Q/f.txt".toList]⟩, []⟩
      (by decide) (by decide)⟩

/-- Disk with directory R, non-empty directory R/d2 holding file g.txt. -/
def c8St : St :=
  ⟨⟨[["R".toList], ["R".toList, "d2".toList]],
    [["R".toList, "d2".toList, "g.txt".toList]]⟩, []⟩

/-- C8 counterexample: the claim says CREATE deletes an existing p first
    and then creates it fresh.  On a non-empty directory with confirmation
    suppressed, the removal step of the code silently does nothing and the
    fresh-creation assertion then fails: CREATE returns an assertion error
    and p is still on disk. -/
theorem c8_counterexample_create_without_delete :
    FileCommand.run .create "R/d2".toList false c8St = (some Err.assertFail, c8St) ∧
    ["R".toList, "d2".toList] ∈ c8St.disk.dirs := by
  exact ⟨by decide, by decide⟩

theorem sibling_length {base q : Pth} (hq : q ≠ [] ∧ q.dropLast = base) :
    q.length = base.length + 1 := by
  have h1 : q.dropLast.length = q.length - 1 := List.length_dropLast q
  have h2 : 0 < q.length := List.length_pos.mpr hq.1
  rw [hq.2] at h1
  omega

theorem sibling_not_prefix {base q r : Pth} (hq : q ≠ [] ∧ q.dropLast = base)
    (hr : r ≠ [] ∧ r.dropLast = base) (hne : q ≠ r) : ¬ q <+: r := by
  intro hpre
  exact hne (List.IsPrefix.eq_of_length hpre
    (by rw [sibling_length hq, sibling_length hr]))

theorem _remove_outside (q : Pth) (prompt : Bool) (st : St) (r : Pth)
    (hnp : ¬ q <+: r) :
    (r ∈ (_remove q prompt st).2.disk.dirs ↔ r ∈ st.disk.dirs) ∧
    (r ∈ (_remove q prompt st).2.disk.files ↔ r ∈ st.disk.files) := by
  have hrq : r ≠ q := by rintro rfl; exact hnp (List.prefix_refl r)
  unfold _remove
  split
  · split
    · simp [Disk.rmdir, List.mem_filter, hrq]
    · split
      · split
        · simp [Disk.rmtree, List.mem_filter, hnp]
        · simp
      · simp
  · split
    · simp [Disk.removeFile, List.mem_filter, hrq]
    · simp

theorem _remove_nodup (q : Pth) (prompt : Bool) (st : St)
    (h : (st.disk.dirs ++ st.disk.files).Nodup) :
    ((_remove q prompt st).2.disk.dirs ++ (_remove q prompt st).2.disk.files).Nodup := by
  unfold _remove
  split
  · split
    · exact h.sublist ((List.filter_sublist _).append (List.Sublist.refl _))
    · split
      · split
        · exact h.sublist ((List.filter_sublist _).append (List.filter_sublist _))
        · exact h
      · exact h
  · split
    · exact h.sublist ((List.Sublist.refl _).append (List.filter_sublist _))
    · exact h

theorem filter_filter_of_imp {α : Type} (l : List α) (K P : α → Bool)
    (h : ∀ x ∈ l, P x = true → K x = true) :
    (l.filter K).filter P = l.filter P := by
  rw [List.filter_filter]
  refine List.filter_congr ?_
  intro x hx
  cases hP : P x with
  | true => simp [hP, h x hx hP]
  | false => simp [hP]

theorem child_pred_not_removed (q pp : Pth) (hnp : ¬ q <+: pp)
    (hnd : q.dropLast ≠ pp) (r : Pth)
    (hr : decide (r.dropLast = pp ∧ r ≠ []) = true) : ¬ q <+: r := by
  simp only [decide_eq_true_eq] at hr
  intro hqr
  rcases Nat.lt_or_ge q.length r.length with hl | hl
  · have h1 : q <+: r.dropLast := by
      rw [List.dropLast_eq_take]
      exact List.prefix_of_prefix_length_le hqr (List.take_prefix _ _) (by
        rw [List.length_take]; omega)
    rw [hr.1] at h1
    exact hnp h1
  · have : q = r := List.IsPrefix.eq_of_length hqr (Nat.le_antisymm hqr.length_le hl)
    exact hnd (by rw [this, hr.1])

theorem _remove_listNames (q : Pth) (prompt : Bool) (st : St) (pp : Pth)
    (hnp : ¬ q <+: pp) (hnd : q.dropLast ≠ pp) :
    (_remove q prompt st).2.disk.listNames pp = st.disk.listNames pp := by
  have hq : ∀ r : Pth, decide (r.dropLast = pp ∧ r ≠ []) = true → decide (r ≠ q) = true := by
    intro r hr
    simp only [decide_eq_true_eq]
    intro hrq
    exact child_pred_not_removed q pp hnp hnd r hr (by rw [hrq])
  have hq2 : ∀ r : Pth, decide (r.dropLast = pp ∧ r ≠ []) = true →
      decide (¬ q <+: r) = true := by
    intro r hr
    simp only [decide_eq_true_eq]
    exact child_pred_not_removed q pp hnp hnd r hr
  unfold _remove
  split
  · split
    · simp only [Disk.listNames, Disk.entries, Disk.rmdir, List.filter_append]
      rw [filter_filter_of_imp _ _ _ (fun x _ => hq x)]
    · split
      · split
        · simp only [Disk.listNames, Disk.entries, Disk.rmtree, List.filter_append]
          rw [filter_filter_of_imp _ _ _ (fun x _ => hq2 x),
            filter_filter_of_imp _ _ _ (fun x _ => hq2 x)]
        · rfl
      · rfl
  · split
    · simp only [Disk.listNames, Disk.entries, Disk.removeFile, List.filter_append]
      rw [filter_filter_of_imp _ _ _ (fun x _ => hq x)]
    · rfl

theorem _remove_file_case (q : Pth) (prompt : Bool) (st : St)
    (hnd : q ∉ st.disk.dirs) (hf : q ∈ st.disk.files) :
    _remove q prompt st = (none, ⟨st.disk.removeFile q, st.answers⟩) := by
  simp [_remove, hnd, hf]

theorem _remove_empty_dir_case (q : Pth) (prompt : Bool) (st : St)
    (hd : q ∈ st.disk.dirs) (he : st.disk.listNames q = []) :
    _remove q prompt st = (none, ⟨st.disk.rmdir q, st.answers⟩) := by
  simp [_remove, hd, he]

theorem _remove_nonempty_noprompt (q : Pth) (st : St)
    (hd : q ∈ st.disk.dirs) (hne : st.disk.listNames q ≠ []) :
    _remove q false st = (none, st) := by
  simp [_remove, hd, hne]

theorem _remove_nonempty_yes (q : Pth) (st : St)
    (hd : q ∈ st.disk.dirs) (hne : st.disk.listNames q ≠ [])
    (ha : st.answers = []) :
    _remove q true st = (none, ⟨st.disk.rmtree q, []⟩) := by
  simp [_remove, hd, hne, ha, popAnswer]

theorem removeFile_self (d : Disk) (q : Pth) : q ∉ (d.removeFile q).files := by
  simp [Disk.removeFile, List.mem_filter]

theorem rmdir_self (d : Disk) (q : Pth) : q ∉ (d.rmdir q).dirs := by
  simp [Disk.rmdir, List.mem_filter]

theorem rmtree_self (d : Disk) (q : Pth) :
    q ∉ (d.rmtree q).dirs ∧ q ∉ (d.rmtree q).files := by
  constructor <;> simp [Disk.rmtree, List.mem_filter]

theorem _remove_sibling_success (q : Pth) (prompt : Bool) (st : St)
    (hex : q ∈ st.disk.dirs ∨ q ∈ st.disk.files)
    (hans : prompt = false ∨ st.answers = []) :
    (_remove q prompt st).1 = none := by
  by_cases hd : q ∈ st.disk.dirs
  · by_cases he : st.disk.listNames q = []
    · rw [_remove_empty_dir_case q prompt st hd he]
    · cases prompt with
      | false => rw [_remove_nonempty_noprompt q st hd he]
      | true =>
        rcases hans with h | h
        · exact absurd h (by simp)
        · rw [_remove_nonempty_yes q st hd he h]
  · rcases hex with h | h
    · exact absurd h hd
    · rw [_remove_file_case q prompt st hd h]

theorem _remove_answers (q : Pth) (prompt : Bool) (st : St)
    (hans : prompt = false ∨ st.answers = []) :
    prompt = false ∨ (_remove q prompt st).2.answers = [] := by
  rcases hans with h | h
  · exact Or.inl h
  · right
    unfold _remove
    split
    · split
      · simpa using h
      · split
        · split
          · simp [popAnswer, h]
          · simp [popAnswer, h]
        · simpa using h
    · split
      · simpa using h
      · simpa using h

theorem _remove_self_spec (q : Pth) (prompt : Bool) (st : St)
    (hdisj : (st.disk.dirs ++ st.disk.files).Nodup)
    (hans : prompt = false ∨ st.answers = []) :
    (q ∉ st.disk.dirs → q ∈ st.disk.files → ¬ (_remove q prompt st).2.disk.pexists q) ∧
    (q ∈ st.disk.dirs → st.disk.listNames q = [] → ¬ (_remove q prompt st).2.disk.pexists q) ∧
    (q ∈ st.disk.dirs → st.disk.listNames q ≠ [] →
      (prompt = false → (_remove q prompt st).2 = st) ∧
      (prompt = true → ¬ (_remove q prompt st).2.disk.pexists q)) := by
  have hdisjoint : ∀ a ∈ st.disk.dirs, a ∉ st.disk.files :=
    fun a ha hb => (List.nodup_append.mp hdisj).2.2 ha hb
  refine ⟨?_, ?_, ?_⟩
  · intro hnd hf
    rw [_remove_file_case q prompt st hnd hf]
    intro hpe
    rcases hpe with h | h
    · exact hnd h
    · exact removeFile_self st.disk q h
  · intro hd he
    rw [_remove_empty_dir_case q prompt st hd he]
    intro hpe
    rcases hpe with h | h
    · exact rmdir_self st.disk q h
    · exact hdisjoint q hd h
  · intro hd hne
    constructor
    · intro hp
      subst hp
      rw [_remove_nonempty_noprompt q st hd hne]
    · intro hp
      subst hp
      rcases hans with h | h
      · exact absurd h (by simp)
      · rw [_remove_nonempty_yes q st hd hne h]
        intro hpe
        rcases hpe with h2 | h2
        · exact (rmtree_self st.disk q).1 h2
        · exact (rmtree_self st.disk q).2 h2

/-- The loop body of REMOVE_EVERYTHING_ELSE as folded over the stray
    entries (lines 160-162), with error propagation modelling the abort. -/
def removalStep (prompt : Bool) (acc : Option Err × St) (q : Pth) : Option Err × St :=
  match acc with
  | (some e, st') => (some e, st')
  | (none, st') => _remove q prompt st'

theorem removal_fold_spec (prompt : Bool) (base : Pth) :
    ∀ (L : List Pth) (st : St),
    (∀ q ∈ L, q ≠ [] ∧ q.dropLast = base) →
    L.Nodup →
    (∀ q ∈ L, q ∈ st.disk.dirs ∨ q ∈ st.disk.files) →
    (st.disk.dirs ++ st.disk.files).Nodup →
    (prompt = false ∨ st.answers = []) →
    (L.foldl (removalStep prompt) (none, st)).1 = none ∧
    (∀ r : Pth, (∀ q ∈ L, ¬ q <+: r) →
      ((r ∈ (L.foldl (removalStep prompt) (none, st)).2.disk.dirs ↔ r ∈ st.disk.dirs) ∧
       (r ∈ (L.foldl (removalStep prompt) (none, st)).2.disk.files ↔ r ∈ st.disk.files))) ∧
    (∀ q ∈ L, q ∉ st.disk.dirs →
      ¬ (L.foldl (removalStep prompt) (none, st)).2.disk.pexists q) ∧
    (∀ q ∈ L, q ∈ st.disk.dirs → st.disk.listNames q = [] →
      ¬ (L.foldl (removalStep prompt) (none, st)).2.disk.pexists q) ∧
    (∀ q ∈ L, q ∈ st.disk.dirs → st.disk.listNames q ≠ [] →
      (prompt = false → q ∈ (L.foldl (removalStep prompt) (none, st)).2.disk.dirs) ∧
      (prompt = true → ¬ (L.foldl (removalStep prompt) (none, st)).2.disk.pexists q)) := by
  intro L
  induction L with
  | nil =>
    intro st _ _ _ _ _
    exact ⟨rfl, fun r _ => ⟨Iff.rfl, Iff.rfl⟩, by simp, by simp, by simp⟩
  | cons q L' ih =>
    intro st hshape hnodup hex hdnodup hans
    have hqmem : q ∈ q :: L' := List.mem_cons_self q L'
    have hq_shape := hshape q hqmem
    have hq_ex := hex q hqmem
    have hnone : (_remove q prompt st).1 = none :=
      _remove_sibling_success q prompt st hq_ex hans
    have hstep : removalStep prompt (none, st) q = (none, (_remove q prompt st).2) := by
      show _remove q prompt st = (none, (_remove q prompt st).2)
      exact Prod.ext hnone rfl
    have hfold : (q :: L').foldl (removalStep prompt) (none, st) =
        L'.foldl (removalStep prompt) (none, (_remove q prompt st).2) := by
      rw [List.foldl_cons, hstep]
    have hqnotin : q ∉ L' := (List.nodup_cons.mp hnodup).1
    have hne_q : ∀ q' ∈ L', q' ≠ q := fun q' h heq => hqnotin (heq ▸ h)
    have hnp_q : ∀ q' ∈ L', ¬ q <+: q' := fun q' h =>
      sibling_not_prefix hq_shape (hshape q' (List.mem_cons_of_mem _ h))
        (fun heq => hqnotin (heq ▸ h))
    have hnp_q2 : ∀ q' ∈ L', ¬ q' <+: q := fun q' h =>
      sibling_not_prefix (hshape q' (List.mem_cons_of_mem _ h)) hq_shape (hne_q q' h)
    have hmem : ∀ q' ∈ L',
        (q' ∈ (_remove q prompt st).2.disk.dirs ↔ q' ∈ st.disk.dirs) ∧
        (q' ∈ (_remove q prompt st).2.disk.files ↔ q' ∈ st.disk.files) :=
      fun q' h => _remove_outside q prompt st q' (hnp_q q' h)
    have hbase_ne : ∀ q' ∈ L', q.dropLast ≠ q' := by
      intro q' h heq
      have hl := sibling_length (hshape q' (List.mem_cons_of_mem _ h))
      rw [hq_shape.2] at heq
      rw [← heq] at hl
      omega
    have hlist : ∀ q' ∈ L',
        (_remove q prompt st).2.disk.listNames q' = st.disk.listNames q' :=
      fun q' h => _remove_listNames q prompt st q' (hnp_q q' h) (hbase_ne q' h)
    have IH := ih (_remove q prompt st).2
      (fun q' h => hshape q' (List.mem_cons_of_mem _ h))
      (List.nodup_cons.mp hnodup).2
      (fun q' h => by
        rcases hex q' (List.mem_cons_of_mem _ h) with hh | hh
        · exact Or.inl ((hmem q' h).1.mpr hh)
        · exact Or.inr ((hmem q' h).2.mpr hh))
      (_remove_nodup q prompt st hdnodup)
      (_remove_answers q prompt st hans)
    obtain ⟨ih1, ih2, ih3, ih4, ih5⟩ := IH
    have hself := _remove_self_spec q prompt st hdnodup hans
    have houtq := ih2 q hnp_q2
    rw [hfold]
    refine ⟨ih1, ?_, ?_, ?_, ?_⟩
    · intro r hall
      have h1 := ih2 r (fun q' h => hall q' (List.mem_cons_of_mem _ h))
      have h0 := _remove_outside q prompt st r (hall q hqmem)
      exact ⟨h1.1.trans h0.1, h1.2.trans h0.2⟩
    · intro q'' h'' hnd
      rcases List.mem_cons.mp h'' with rfl | hmem'
      · have hf : q'' ∈ st.disk.files := by
          rcases hq_ex with h | h
          · exact absurd h hnd
          · exact h
        have hs := hself.1 hnd hf
        intro hpe
        rcases hpe with h | h
        · exact hs (Or.inl (houtq.1.mp h))
        · exact hs (Or.inr (houtq.2.mp h))
      · have hnd0 : q'' ∉ (_remove q prompt st).2.disk.dirs :=
          fun h => hnd ((hmem q'' hmem').1.mp h)
        exact ih3 q'' hmem' hnd0
    · intro q'' h'' hd he
      rcases List.mem_cons.mp h'' with rfl | hmem'
      · have hs := hself.2.1 hd he
        intro hpe
        rcases hpe with h | h
        · exact hs (Or.inl (houtq.1.mp h))
        · exact hs (Or.inr (houtq.2.mp h))
      · exact ih4 q'' hmem' ((hmem q'' hmem').1.mpr hd)
          (by rw [hlist q'' hmem']; exact he)
    · intro q'' h'' hd hne
      rcases List.mem_cons.mp h'' with rfl | hmem'
      · constructor
        · intro hp
          have hst0 := (hself.2.2 hd hne).1 hp
          refine houtq.1.mpr ?_
          rw [hst0]
          exact hd
        · intro hp
          have hs := (hself.2.2 hd hne).2 hp
          intro hpe
          rcases hpe with h | h
          · exact hs (Or.inl (houtq.1.mp h))
          · exact hs (Or.inr (houtq.2.mp h))
      · have := ih5 q'' hmem' ((hmem q'' hmem').1.mpr hd)
          (by rw [hlist q'' hmem']; exact hne)
        exact this

/-- The disk entries directly under base, as paths (all_files, line 154). -/
def Disk.childrenOf (d : Disk) (base : Pth) : List Pth :=
  (d.listNames base).map (fun n => base ++ [n])

/-- everything_else (line 155): the children outside the declared paths. -/
def straysOf (d : Disk) (base : Pth) (paths : List Str) : List Pth :=
  (d.childrenOf base).filter (fun q => decide (q ∉ paths.map segsOf))

theorem childrenOf_spec (d : Disk) (base : Pth) (q : Pth)
    (hq : q ∈ d.childrenOf base) :
    (q ∈ d.dirs ∨ q ∈ d.files) ∧ q ≠ [] ∧ q.dropLast = base := by
  obtain ⟨n, hn, rfl⟩ := List.mem_map.mp hq
  refine ⟨?_, by simp, by simp⟩
  obtain ⟨e, he, hlast⟩ := List.mem_filterMap.mp hn
  have hP := List.of_mem_filter he
  simp only [decide_eq_true_eq] at hP
  have h1 : e.getLast hP.2 = n := by
    rw [List.getLast?_eq_getLast e hP.2] at hlast
    simpa using hlast
  have hee : e = base ++ [n] := by
    rw [← hP.1, ← h1, List.dropLast_append_getLast]
  rw [← hee]
  exact List.mem_append.mp (List.mem_of_mem_filter he)

theorem filterMap_getLast_eq_map (l : List Pth) (h : ∀ r ∈ l, r ≠ []) :
    l.filterMap List.getLast? = l.map (fun r => r.getLastD []) := by
  induction l with
  | nil => rfl
  | cons x xs ih =>
    have hx := h x (List.mem_cons_self _ _)
    rw [List.filterMap_cons, List.map_cons,
      ih (fun r hr => h r (List.mem_cons_of_mem _ hr)),
      List.getLast?_eq_getLast x hx]
    rw [List.getLastD_eq_getLast?, List.getLast?_eq_getLast x hx]
    rfl

theorem listNames_nodup (d : Disk) (base : Pth)
    (h : (d.dirs ++ d.files).Nodup) : (d.listNames base).Nodup := by
  unfold Disk.listNames
  have hne : ∀ r ∈ d.entries.filter
      (fun q => decide (q.dropLast = base ∧ q ≠ [])), r ≠ [] := by
    intro r hr
    have := List.of_mem_filter hr
    simp only [decide_eq_true_eq] at this
    exact this.2
  rw [filterMap_getLast_eq_map _ hne]
  refine List.Nodup.map_on ?_ (h.filter _)
  intro x hx y hy hxy
  have hxP := List.of_mem_filter hx
  have hyP := List.of_mem_filter hy
  simp only [decide_eq_true_eq] at hxP hyP
  obtain ⟨hx1, hx2⟩ := hxP
  obtain ⟨hy1, hy2⟩ := hyP
  have ex := List.dropLast_append_getLast hx2
  have ey := List.dropLast_append_getLast hy2
  have hgx : x.getLast hx2 = x.getLastD [] := by
    rw [List.getLastD_eq_getLast?, List.getLast?_eq_getLast x hx2]
    rfl
  have hgy : y.getLast hy2 = y.getLastD [] := by
    rw [List.getLastD_eq_getLast?, List.getLast?_eq_getLast y hy2]
    rfl
  rw [hx1, hgx] at ex
  rw [hy1, hgy] at ey
  exact ex.symm.trans ((congrArg (fun z => base ++ [z]) hxy).trans ey)

theorem straysOf_spec (d : Disk) (base : Pth) (paths : List Str) (q : Pth)
    (hq : q ∈ straysOf d base paths) :
    (q ∈ d.dirs ∨ q ∈ d.files) ∧ q ≠ [] ∧ q.dropLast = base ∧ q ∉ paths.map segsOf := by
  have h1 := List.mem_of_mem_filter hq
  have h2 := List.of_mem_filter hq
  simp only [decide_eq_true_eq] at h2
  have h3 := childrenOf_spec d base q h1
  exact ⟨h3.1, h3.2.1, h3.2.2, h2⟩

theorem straysOf_nodup (d : Disk) (base : Pth) (paths : List Str)
    (h : (d.dirs ++ d.files).Nodup) : (straysOf d base paths).Nodup := by
  refine List.Nodup.filter _ (List.Nodup.map ?_ (listNames_nodup d base h))
  intro a b hab
  simpa using hab

theorem run_missing_noop (c : FileStructureCommand) (pstr : Str) (paths : List Str)
    (prompt : Bool) (st : St) (h : ¬ st.disk.pexists (segsOf pstr)) :
    FileStructureCommand.run c pstr paths prompt st = (none, st) := by
  unfold FileStructureCommand.run
  rw [if_neg h]

theorem run_notadir_oserror (c : FileStructureCommand) (pstr : Str)
    (paths : List Str) (prompt : Bool) (st : St)
    (hex : st.disk.pexists (segsOf pstr)) (hnd : segsOf pstr ∉ st.disk.dirs) :
    FileStructureCommand.run c pstr paths prompt st = (some .osError, st) := by
  unfold FileStructureCommand.run
  rw [if_pos hex, if_neg hnd]

theorem run_that_is_all_spec (pstr : Str) (paths : List Str) (prompt : Bool) (st : St)
    (hdir : segsOf pstr ∈ st.disk.dirs) :
    (FileStructureCommand.run .that_is_all pstr paths prompt st).2 = st ∧
    ((FileStructureCommand.run .that_is_all pstr paths prompt st).1 = none ↔
      straysOf st.disk (segsOf pstr) paths = []) := by
  unfold FileStructureCommand.run straysOf Disk.childrenOf
  rw [if_pos (Or.inl hdir), if_pos hdir]
  dsimp only
  by_cases hemp : ((st.disk.listNames (segsOf pstr)).map
      (fun n => segsOf pstr ++ [n])).filter (fun q => decide (q ∉ paths.map segsOf)) = []
  · rw [if_pos hemp]
    exact ⟨rfl, Iff.intro (fun _ => hemp) (fun _ => rfl)⟩
  · rw [if_neg hemp]
    exact ⟨rfl, Iff.intro (fun h => absurd h (by simp)) (fun h => absurd h hemp)⟩

theorem run_ree_eq_fold (pstr : Str) (paths : List Str) (prompt : Bool) (st : St)
    (hdir : segsOf pstr ∈ st.disk.dirs) :
    FileStructureCommand.run .remove_everything_else pstr paths prompt st =
      (straysOf st.disk (segsOf pstr) paths).foldl (removalStep prompt) (none, st) := by
  unfold FileStructureCommand.run straysOf Disk.childrenOf removalStep
  rw [if_pos (Or.inl hdir), if_pos hdir]

/-- C4 (amended): both structural commands are no-ops when the node's path
    does not exist on disk, and both raise OSError (NotADirectoryError
    from os.listdir) when the path exists but not as a directory; when the
    path is a directory, THAT_IS_ALL leaves the state untouched and fails
    exactly when some disk entry directly under the node's path lies
    outside the declared children's paths; REMOVE_EVERYTHING_ELSE (on a
    duplicate-free disk, with either prompting suppressed or every prompt
    answered affirmatively) succeeds, never removes a declared child's
    path, removes every stray entry that is a file or an empty directory,
    and removes a stray non-empty directory exactly when prompting is
    enabled (with prompting suppressed such an entry is left in place —
    this is where the original claim's "deletes every disk entry outside
    the declared set" fails, see the counterexample). -/
theorem c4_structure_command_semantics :
    (∀ (c : FileStructureCommand) (pstr : Str) (paths : List Str) (prompt : Bool) (st : St),
      ¬ st.disk.pexists (segsOf pstr) →
      FileStructureCommand.run c pstr paths prompt st = (none, st)) ∧
    (∀ (c : FileStructureCommand) (pstr : Str) (paths : List Str) (prompt : Bool) (st : St),
      st.disk.pexists (segsOf pstr) → segsOf pstr ∉ st.disk.dirs →
      FileStructureCommand.run c pstr paths prompt st = (some .osError, st)) ∧
    (∀ (pstr : Str) (paths : List Str) (prompt : Bool) (st : St),
      segsOf pstr ∈ st.disk.dirs →
      (FileStructureCommand.run .that_is_all pstr paths prompt st).2 = st ∧
      ((FileStructureCommand.run .that_is_all pstr paths prompt st).1 = none ↔
        straysOf st.disk (segsOf pstr) paths = [])) ∧
    (∀ (pstr : Str) (paths : List Str) (prompt : Bool) (st : St),
      segsOf pstr ∈ st.disk.dirs →
      (st.disk.dirs ++ st.disk.files).Nodup →
      (prompt = false ∨ st.answers = []) →
      (FileStructureCommand.run .remove_everything_else pstr paths prompt st).1 = none ∧
      (∀ p ∈ paths, (∃ n, segsOf p = segsOf pstr ++ [n]) →
        (segsOf p ∈ st.disk.dirs →
          segsOf p ∈ (FileStructureCommand.run .remove_everything_else pstr paths prompt st).2.disk.dirs) ∧
        (segsOf p ∈ st.disk.files →
          segsOf p ∈ (FileStructureCommand.run .remove_everything_else pstr paths prompt st).2.disk.files)) ∧
      (∀ q ∈ straysOf st.disk (segsOf pstr) paths,
        (q ∉ st.disk.dirs →
          ¬ (FileStructureCommand.run .remove_everything_else pstr paths prompt st).2.disk.pexists q) ∧
        (q ∈ st.disk.dirs → st.disk.listNames q = [] →
          ¬ (FileStructureCommand.run .remove_everything_else pstr paths prompt st).2.disk.pexists q) ∧
        (q ∈ st.disk.dirs → st.disk.listNames q ≠ [] →
          (prompt = false →
            q ∈ (FileStructureCommand.run .remove_everything_else pstr paths prompt st).2.disk.dirs) ∧
          (prompt = true →
            ¬ (FileStructureCommand.run .remove_everything_else pstr paths prompt st).2.disk.pexists q)))) := by
  refine ⟨run_missing_noop, run_notadir_oserror, run_that_is_all_spec, ?_⟩
  intro pstr paths prompt st hdir hnodup hans
  have heq := run_ree_eq_fold pstr paths prompt st hdir
  have hfold := removal_fold_spec prompt (segsOf pstr)
    (straysOf st.disk (segsOf pstr) paths) st
    (fun q hq => ⟨(straysOf_spec _ _ _ q hq).2.1, (straysOf_spec _ _ _ q hq).2.2.1⟩)
    (straysOf_nodup _ _ _ hnodup)
    (fun q hq => (straysOf_spec _ _ _ q hq).1)
    hnodup hans
  obtain ⟨hf1, hf2, hf3, hf4, hf5⟩ := hfold
  rw [heq]
  refine ⟨hf1, ?_, ?_⟩
  · intro p hp hform
    obtain ⟨n, hn⟩ := hform
    have hnp : ∀ q ∈ straysOf st.disk (segsOf pstr) paths, ¬ q <+: segsOf p := by
      intro q hq
      have hs := straysOf_spec _ _ _ q hq
      refine sibling_not_prefix ⟨hs.2.1, hs.2.2.1⟩ ⟨?_, ?_⟩ ?_
      · rw [hn]; simp
      · rw [hn]; simp
      · intro heq2
        exact hs.2.2.2 (heq2 ▸ (List.mem_map.mpr ⟨p, hp, rfl⟩))
    have hiff := hf2 (segsOf p) hnp
    exact ⟨hiff.1.mpr, hiff.2.mpr⟩
  · intro q hq
    exact ⟨fun h1 => hf3 q hq h1,
           fun h1 h2 => hf4 q hq h1 h2,
           fun h1 h2 => hf5 q hq h1 h2⟩

/-- Directory T containing declared file a.txt and a stray non-empty
    directory junk (holding z.txt). -/
def c4St : St :=
  ⟨⟨[["T".toList], ["T".toList, "junk".toList]],
    [["T".toList, "a.txt".toList], ["T".toList, "junk".toList, "z.txt".toList]]⟩, []⟩

/-- C4 counterexample: with confirmation suppressed,
    REMOVE_EVERYTHING_ELSE returns successfully while the stray non-empty
    directory T/junk — a disk entry outside the declared set — is still on
    disk, because _remove skips a non-empty directory when prompting is
    disabled.  The claim's "deletes every disk entry outside the declared
    set" therefore fails. -/
theorem c4_counterexample_nonempty_stray_survives :
    FileStructureCommand.run .remove_everything_else "T".toList
      ["T/a.txt".toList] false c4St = (none, c4St) ∧
    ["T".toList, "junk".toList] ∈
      straysOf c4St.disk (segsOf "T".toList) ["T/a.txt".toList] ∧
    ["T".toList, "junk".toList] ∈ c4St.disk.dirs := by
  exact ⟨by decide, by decide, by decide⟩

/-- Directory T containing declared file a.txt and stray file b.txt. -/
def c4WSt : St :=
  ⟨⟨[["T".toList]], [["T".toList, "a.txt".toList], ["T".toList, "b.txt".toList]]⟩, []⟩

/-- Witness for the amended C4 at concrete inputs: the missing-path no-op,
    the OSError when the path exists as a regular file, the THAT_IS_ALL
    failure condition, and a run of REMOVE_EVERYTHING_ELSE that removes
    the stray file b.txt while keeping the declared a.txt. -/
theorem c4_structure_command_semantics_witness :
    FileStructureCommand.run .that_is_all "n".toList [] false c4WSt = (none, c4WSt) ∧
    FileStructureCommand.run .that_is_all "T/a.txt".toList [] false c4WSt =
      (some .osError, c4WSt) ∧
    ((FileStructureCommand.run .that_is_all "T".toList ["T/a.txt".toList] false c4WSt).1 =
        none ↔
      straysOf c4WSt.disk (segsOf "T".toList) ["T/a.txt".toList] = []) ∧
    (FileStructureCommand.run .remove_everything_else "T".toList
      ["T/a.txt".toList] false c4WSt).1 = none ∧
    segsOf "T/a.txt".toList ∈ (FileStructureCommand.run .remove_everything_else
      "T".toList ["T/a.txt".toList] false c4WSt).2.disk.files ∧
    ¬ (FileStructureCommand.run .remove_everything_else "T".toList
      ["T/a.txt".toList] false c4WSt).2.disk.pexists ["T".toList, "b.txt".toList] := by
  obtain ⟨g1, g2, g3, g4⟩ := c4_structure_command_semantics
  have h4 := g4 "T".toList ["T/a.txt".toList] false c4WSt (by decide) (by decide)
    (Or.inl rfl)
  refine ⟨g1 .that_is_all "n".toList [] false c4WSt (by decide),
    g2 .that_is_all "T/a.txt".toList [] false c4WSt (by decide) (by decide),
    (g3 "T".toList ["T/a.txt".toList] false c4WSt (by decide)).2, h4.1, ?_, ?_⟩
  · exact (h4.2.1 "T/a.txt".toList (by decide) ⟨"a.txt".toList, by decide⟩).2 (by decide)
  · exact (h4.2.2 ["T".toList, "b.txt".toList] (by decide)).1 (by decide)

/-- The first two steps of FileStructure.do (lines 361-366): the structural
    command, then the node's own command, with the combined outcome, state
    and event trace. -/
def runHead (f : FileStructure) (prompt : Bool) (st : St) : Option Err × St × List Ev :=
  match (match f.main_dir_file_structure_command with
    | some sc =>
      let paths := f.list_dir.map childPath
      let r := FileStructureCommand.run sc f.path paths prompt st
      (r.1, r.2, [Ev.scmdRun sc f.path])
    | none => (none, st, ([] : List Ev))) with
  | (some e, st1, tr1) => (some e, st1, tr1)
  | (none, st1, tr1) =>
    match f.main_dir_file_command with
    | some c =>
      let r := FileCommand.run c f.path prompt st1
      (r.1, r.2, tr1 ++ [Ev.cmdRun c f.path])
    | none => (none, st1, tr1)

/-- The step the child loop of FileStructure.do folds over the zipped
    (child, command) pairs, carrying the processed children, the state and
    the trace; after an error it is the identity up to recording the
    untouched child, modelling the aborted loop. -/
def childStepFn (fuel : Nat) (prompt : Bool)
    (acc : Option Err × List Ch × St × List Ev) (cm : Ch × Option FileCommand) :
    Option Err × List Ch × St × List Ev :=
  match acc with
  | (some e, done, stA, trA) => (some e, done ++ [cm.1], stA, trA)
  | (none, done, stA, trA) =>
    match cm.1, cm.2 with
    | .inl p, some fc =>
      let r := FileCommand.run fc p prompt stA
      (r.1, done ++ [Sum.inl p], r.2, trA ++ [Ev.cmdRun fc p])
    | .inl p, none => (none, done ++ [Sum.inl p], stA, trA)
    | .inr g, some _ => (some Err.assertFail, done ++ [Sum.inr g], stA, trA)
    | .inr g, none =>
      let r := FileStructure.runDo fuel g prompt stA
      (r.1, done ++ [Sum.inr r.2.1], r.2.2.1, trA ++ r.2.2.2)

/-- The child loop of FileStructure.do as a fold. -/
def childFold (fuel : Nat) (prompt : Bool) (cs : List Ch)
    (ms : List (Option FileCommand)) (st : St) : Option Err × List Ch × St × List Ev :=
  (cs.zip ms).foldl (childStepFn fuel prompt) (none, [], st, [])

theorem childStepFn_none (fuel : Nat) (prompt : Bool) (done : List Ch) (st : St)
    (tr : List Ev) (cm : Ch × Option FileCommand) :
    childStepFn fuel prompt (none, done, st, tr) cm =
      ((runChildStep fuel cm.1 cm.2 prompt st).1,
       done ++ [(runChildStep fuel cm.1 cm.2 prompt st).2.1],
       (runChildStep fuel cm.1 cm.2 prompt st).2.2.1,
       tr ++ (runChildStep fuel cm.1 cm.2 prompt st).2.2.2) := by
  rcases cm with ⟨c, m⟩
  cases c <;> cases m <;> simp [childStepFn, runChildStep]

theorem childFold_err (fuel : Nat) (prompt : Bool) :
    ∀ (L : List (Ch × Option FileCommand)) (e : Err) (done : List Ch) (st : St)
      (tr : List Ev),
    L.foldl (childStepFn fuel prompt) (some e, done, st, tr) =
      (some e, done ++ L.map Prod.fst, st, tr) := by
  intro L
  induction L with
  | nil => intro e done st tr; simp
  | cons cm L' ih =>
    intro e done st tr
    rw [List.foldl_cons]
    show L'.foldl (childStepFn fuel prompt) (some e, done ++ [cm.1], st, tr) = _
    rw [ih]
    simp

theorem childFold_shift (fuel : Nat) (prompt : Bool) :
    ∀ (L : List (Ch × Option FileCommand)) (done0 : List Ch) (st : St) (tr0 : List Ev),
    L.foldl (childStepFn fuel prompt) (none, done0, st, tr0) =
      ((L.foldl (childStepFn fuel prompt) (none, [], st, [])).1,
       done0 ++ (L.foldl (childStepFn fuel prompt) (none, [], st, [])).2.1,
       (L.foldl (childStepFn fuel prompt) (none, [], st, [])).2.2.1,
       tr0 ++ (L.foldl (childStepFn fuel prompt) (none, [], st, [])).2.2.2) := by
  intro L
  induction L with
  | nil => intro done0 st tr0; simp
  | cons cm L' ih =>
    intro done0 st tr0
    rw [List.foldl_cons, List.foldl_cons, childStepFn_none, childStepFn_none]
    rcases hs : (runChildStep fuel cm.1 cm.2 prompt st).1 with _ | e
    · rw [ih ([] ++ [(runChildStep fuel cm.1 cm.2 prompt st).2.1]) _ _]
      rw [ih (done0 ++ [(runChildStep fuel cm.1 cm.2 prompt st).2.1]) _ _]
      simp
    · rw [childFold_err, childFold_err]
      simp

theorem map_fst_zip_take {α β : Type} : ∀ (l1 : List α) (l2 : List β),
    (l1.zip l2).map Prod.fst = l1.take (min l1.length l2.length) := by
  intro l1
  induction l1 with
  | nil => intro l2; simp
  | cons a l1' ih =>
    intro l2
    cases l2 with
    | nil => simp
    | cons b l2' =>
      simp only [List.zip_cons_cons, List.map_cons, List.length_cons]
      rw [ih l2']
      rw [Nat.succ_min_succ]
      rfl

/-- Sequential processing of the (child, command) pairs of a Directory in
    declaration order, as FileStructure.do performs it: processing stops
    when either list is exhausted; a successful step contributes its events
    and updated child and processing continues on the resulting state; a
    failing step contributes its own events and child, stops everything,
    and leaves all later children untouched with no events of theirs. -/
inductive ChSteps (fuel : Nat) (prompt : Bool) :
    List Ch → List (Option FileCommand) → St →
    Option Err × List Ch × St × List Ev → Prop where
  | nilL (ms : List (Option FileCommand)) (st : St) :
      ChSteps fuel prompt [] ms st (none, [], st, [])
  | nilR (c : Ch) (cs : List Ch) (st : St) :
      ChSteps fuel prompt (c :: cs) [] st (none, c :: cs, st, [])
  | stepOk (c : Ch) (cs : List Ch) (m : Option FileCommand)
      (ms : List (Option FileCommand)) (st st1 : St) (c' : Ch) (ev : List Ev)
      (out : Option Err × List Ch × St × List Ev) :
      runChildStep fuel c m prompt st = (none, c', st1, ev) →
      ChSteps fuel prompt cs ms st1 out →
      ChSteps fuel prompt (c :: cs) (m :: ms) st
        (out.1, c' :: out.2.1, out.2.2.1, ev ++ out.2.2.2)
  | stepErr (c : Ch) (cs : List Ch) (m : Option FileCommand)
      (ms : List (Option FileCommand)) (st st1 : St) (e : Err) (c' : Ch)
      (ev : List Ev) :
      runChildStep fuel c m prompt st = (some e, c', st1, ev) →
      ChSteps fuel prompt (c :: cs) (m :: ms) st (some e, c' :: cs, st1, ev)

/-- Adequacy: the child-loop fold of FileStructure.do (with the untouched
    suffix of the children appended, as runDo does) is exactly a ChSteps
    derivation. -/
theorem childFold_chsteps (fuel : Nat) (prompt : Bool) :
    ∀ (cs : List Ch) (ms : List (Option FileCommand)) (st : St),
    ChSteps fuel prompt cs ms st
      ((childFold fuel prompt cs ms st).1,
       (childFold fuel prompt cs ms st).2.1 ++ cs.drop (min cs.length ms.length),
       (childFold fuel prompt cs ms st).2.2.1,
       (childFold fuel prompt cs ms st).2.2.2) := by
  intro cs
  induction cs with
  | nil =>
    intro ms st
    simpa [childFold] using @ChSteps.nilL fuel prompt ms st
  | cons c cs' ih =>
    intro ms st
    cases ms with
    | nil =>
      simpa [childFold] using @ChSteps.nilR fuel prompt c cs' st
    | cons m ms' =>
      have hstep := childStepFn_none fuel prompt [] st [] (c, m)
      rcases hs : runChildStep fuel c m prompt st with ⟨res, c', st1, ev⟩
      rw [hs] at hstep
      cases res with
      | none =>
        have hfold : childFold fuel prompt (c :: cs') (m :: ms') st =
            ((childFold fuel prompt cs' ms' st1).1,
             c' :: (childFold fuel prompt cs' ms' st1).2.1,
             (childFold fuel prompt cs' ms' st1).2.2.1,
             ev ++ (childFold fuel prompt cs' ms' st1).2.2.2) := by
          unfold childFold
          rw [List.zip_cons_cons, List.foldl_cons, hstep]
          rw [childFold_shift fuel prompt (cs'.zip ms') ([] ++ [c']) st1 ([] ++ ev)]
          simp
        rw [hfold]
        have hgoal := ChSteps.stepOk c cs' m ms' st st1 c' ev
          ((childFold fuel prompt cs' ms' st1).1,
           (childFold fuel prompt cs' ms' st1).2.1 ++ cs'.drop (min cs'.length ms'.length),
           (childFold fuel prompt cs' ms' st1).2.2.1,
           (childFold fuel prompt cs' ms' st1).2.2.2) hs (ih ms' st1)
        simpa [Nat.succ_min_succ, List.cons_append] using hgoal
      | some e =>
        have hfold : childFold fuel prompt (c :: cs') (m :: ms') st =
            (some e, c' :: (cs'.zip ms').map Prod.fst, st1, ev) := by
          unfold childFold
          rw [List.zip_cons_cons, List.foldl_cons, hstep]
          rw [childFold_err]
          simp
        rw [hfold]
        have hgoal := ChSteps.stepErr c cs' m ms' st st1 e c' ev hs
        have heq : (c' :: (cs'.zip ms').map Prod.fst) ++
            (c :: cs').drop (min (c :: cs').length (m :: ms').length) = c' :: cs' := by
          rw [map_fst_zip_take]
          simp only [List.length_cons, Nat.succ_min_succ, List.drop_succ_cons,
            List.cons_append]
          rw [List.take_append_drop]
        simp only [List.length_cons] at heq ⊢
        rw [heq]
        exact hgoal

/-- FileStructure.do on an unexecuted node factors into the head part
    (structural command, then own command) followed by the child loop. -/
theorem runDo_unfold (fuel : Nat) (f : FileStructure) (prompt : Bool) (st : St)
    (h : f.commands_run = false) :
    FileStructure.runDo (fuel + 1) f prompt st =
      match runHead f prompt st with
      | (some e, st1, tr1) => (some e, f, st1, tr1)
      | (none, st2, tr12) =>
        ((childFold fuel prompt f.list_dir f.list_dir_file_commands st2).1,
         FileStructure.mk f.main_dir f.main_dir_file_command
           f.main_dir_file_structure_command
           ((childFold fuel prompt f.list_dir f.list_dir_file_commands st2).2.1 ++
             f.list_dir.drop (min f.list_dir.length f.list_dir_file_commands.length))
           f.list_dir_file_commands f.dict_dir
           (childFold fuel prompt f.list_dir f.list_dir_file_commands st2).1.isNone,
         (childFold fuel prompt f.list_dir f.list_dir_file_commands st2).2.2.1,
         tr12 ++ (childFold fuel prompt f.list_dir f.list_dir_file_commands st2).2.2.2) := by
  have hfold : ∀ st2 : St,
      (f.list_dir.zip f.list_dir_file_commands).foldl
        (fun acc cm =>
          match acc with
          | (some e, done, stA, trA) => (some e, done ++ [cm.1], stA, trA)
          | (none, done, stA, trA) =>
            match cm.1, cm.2 with
            | Sum.inl p, some fc =>
              ((FileCommand.run fc p prompt stA).1, done ++ [Sum.inl p],
                (FileCommand.run fc p prompt stA).2, trA ++ [Ev.cmdRun fc p])
            | Sum.inl p, none => (none, done ++ [Sum.inl p], stA, trA)
            | Sum.inr g, some _ => (some Err.assertFail, done ++ [Sum.inr g], stA, trA)
            | Sum.inr g, none =>
              ((FileStructure.runDo fuel g prompt stA).1,
                done ++ [Sum.inr (FileStructure.runDo fuel g prompt stA).2.1],
                (FileStructure.runDo fuel g prompt stA).2.2.1,
                trA ++ (FileStructure.runDo fuel g prompt stA).2.2.2))
        (none, [], st2, []) = childFold fuel prompt f.list_dir f.list_dir_file_commands st2 :=
    fun _ => rfl
  simp only [FileStructure.runDo, h, Bool.false_eq_true, if_false]
  unfold runHead
  cases hsc : f.main_dir_file_structure_command with
  | some sc =>
    rcases hr1 : FileStructureCommand.run sc f.path (f.list_dir.map childPath) prompt st
      with ⟨res1, stx1⟩
    cases res1 with
    | some e => simp [hr1]
    | none =>
      cases hc : f.main_dir_file_command with
      | some c =>
        rcases hr2 : FileCommand.run c f.path prompt stx1 with ⟨res2, stx2⟩
        cases res2 with
        | some e2 => simp [hr1, hr2]
        | none =>
          simp only [hr1, hr2]
          rw [hfold]
          rcases hcf : childFold fuel prompt f.list_dir f.list_dir_file_commands stx2
            with ⟨rf, donef, stf, trf⟩
          cases rf <;> simp [List.append_assoc]
      | none =>
        simp only [hr1]
        rw [hfold]
        rcases hcf : childFold fuel prompt f.list_dir f.list_dir_file_commands stx1
          with ⟨rf, donef, stf, trf⟩
        cases rf <;> simp [List.append_assoc]
  | none =>
    cases hc : f.main_dir_file_command with
    | some c =>
      rcases hr2 : FileCommand.run c f.path prompt st with ⟨res2, stx2⟩
      cases res2 with
      | some e2 => simp [hr2]
      | none =>
        simp only [hr2]
        rw [hfold]
        rcases hcf : childFold fuel prompt f.list_dir f.list_dir_file_commands stx2
          with ⟨rf, donef, stf, trf⟩
        cases rf <;> simp [List.append_assoc]
    | none =>
      dsimp only
      rw [hfold]
      rcases hcf : childFold fuel prompt f.list_dir f.list_dir_file_commands st
        with ⟨rf, donef, stf, trf⟩
      cases rf <;> simp [List.append_assoc]

/-- C5: within a Directory, reconcile runs the StructureCommand and the
    node's own Command first (runHead: their events open the trace, and if
    the head fails nothing else runs — no child event, children untouched),
    and then processes the children exactly as a ChSteps derivation:
    strictly in declaration order, each child's events appended in turn,
    recursing into nested Directory children, and on a failing child the
    run aborts at that point — the later children are untouched and
    contribute no events. -/
theorem c5_execution_order (fuel : Nat) (f : FileStructure) (prompt : Bool) (st : St)
    (h : f.commands_run = false) :
    (∀ (e : Err) (st1 : St) (tr1 : List Ev), runHead f prompt st = (some e, st1, tr1) →
      FileStructure.runDo (fuel + 1) f prompt st = (some e, f, st1, tr1)) ∧
    (∀ (st2 : St) (tr12 : List Ev), runHead f prompt st = (none, st2, tr12) →
      ∃ out : Option Err × List Ch × St × List Ev,
        ChSteps fuel prompt f.list_dir f.list_dir_file_commands st2 out ∧
        FileStructure.runDo (fuel + 1) f prompt st =
          (out.1,
           FileStructure.mk f.main_dir f.main_dir_file_command
             f.main_dir_file_structure_command out.2.1 f.list_dir_file_commands
             f.dict_dir out.1.isNone,
           out.2.2.1, tr12 ++ out.2.2.2)) := by
  have hu := runDo_unfold fuel f prompt st h
  constructor
  · intro e st1 tr1 hhead
    rw [hu, hhead]
  · intro st2 tr12 hhead
    rw [hu, hhead]
    exact ⟨((childFold fuel prompt f.list_dir f.list_dir_file_commands st2).1,
      (childFold fuel prompt f.list_dir f.list_dir_file_commands st2).2.1 ++
        f.list_dir.drop (min f.list_dir.length f.list_dir_file_commands.length),
      (childFold fuel prompt f.list_dir f.list_dir_file_commands st2).2.2.1,
      (childFold fuel prompt f.list_dir f.list_dir_file_commands st2).2.2.2),
      childFold_chsteps fuel prompt f.list_dir f.list_dir_file_commands st2, rfl⟩

/-- Witness for C5 at the concrete demo structure on an empty disk. -/
theorem c5_execution_order_witness :
    ∃ out : Option Err × List Ch × St × List Ev,
      ChSteps 5 true demoFS.list_dir demoFS.list_dir_file_commands ⟨⟨[], []⟩, []⟩ out ∧
      FileStructure.runDo (5 + 1) demoFS true ⟨⟨[], []⟩, []⟩ =
        (out.1,
         FileStructure.mk demoFS.main_dir demoFS.main_dir_file_command
           demoFS.main_dir_file_structure_command out.2.1
           demoFS.list_dir_file_commands demoFS.dict_dir out.1.isNone,
         out.2.2.1, [] ++ out.2.2.2) :=
  (c5_execution_order 5 demoFS true ⟨⟨[], []⟩, []⟩ rfl).2 ⟨⟨[], []⟩, []⟩ [] rfl

theorem calc_num_indents_pos (line : Str) (numLead : Nat) (il pni : Int)
    (pio : Bool) (ni : Int)
    (h : calc_num_indents line numLead il pni pio = .ok ni) :
    (numLeading line : Int) - (numLead : Int) > 0 := by
  unfold calc_num_indents at h
  by_cases hpos : (numLeading line : Int) - (numLead : Int) > 0
  · exact hpos
  · simp [hpos] at h

theorem process_line_block_spec (numIndents : Int) (numLead : Nat) (il : Int) :
    ∀ rest : List Str,
    (process_line_block rest numIndents numLead il).2 ≤ rest.length ∧
    ∀ j < (process_line_block rest numIndents numLead il).2,
      Int.fdiv ((numLeading (rest.getD j [])) - (numLead : Int)) il > numIndents := by
  intro rest
  induction rest with
  | nil => exact ⟨by simp [process_line_block], by simp [process_line_block]⟩
  | cons cur rest' ih =>
    by_cases hc : Int.fdiv ((numLeading cur : Int) - (numLead : Int)) il ≤ numIndents
    · constructor
      · simp [process_line_block, hc]
      · intro j hj
        simp [process_line_block, hc] at hj
    · have hunf : process_line_block (cur :: rest') numIndents numLead il =
          (cur :: (process_line_block rest' numIndents numLead il).1,
           (process_line_block rest' numIndents numLead il).2 + 1) := by
        simp [process_line_block, hc]
      constructor
      · rw [hunf]
        simpa using ih.1
      · intro j hj
        rw [hunf] at hj
        simp only at hj
        cases j with
        | zero => simpa using lt_of_not_le hc
        | succ j' =>
          have := ih.2 j' (by omega)
          simpa using this

theorem pos_of_fdiv_gt_one (q il : Int) (hil : 0 < il)
    (h : Int.fdiv q il > 1) : q > 0 := by
  have h2 : (2 : Int) ≤ Int.fdiv q il := h
  rw [Int.fdiv_eq_ediv _ (le_of_lt hil)] at h2
  have h3 := (Int.le_ediv_iff_mul_le hil).mp h2
  nlinarith

theorem getD_drop_eq (l : List Str) (n j : Nat) (h : n + j < l.length) :
    (l.drop n).getD j [] = l.getD (n + j) [] := by
  simp [List.getD_eq_getElem?_getD, List.getElem?_drop]

theorem block_gap_pos (lines : List Str) (nl : Nat) (il : Int) (hil : 0 < il)
    (i j : Nat) (hj1 : i + 1 ≤ j)
    (hj2 : j < i + 1 + (process_line_block (lines.drop (i + 1)) 1 nl il).2)
    (hlen : j < lines.length) :
    (numLeading (lines.getD j []) : Int) - (nl : Int) > 0 := by
  have hspec := process_line_block_spec 1 nl il (lines.drop (i + 1))
  have hj' : j - (i + 1) < (process_line_block (lines.drop (i + 1)) 1 nl il).2 := by
    omega
  have hcond := hspec.2 (j - (i + 1)) hj'
  have heq : (lines.drop (i + 1)).getD (j - (i + 1)) [] = lines.getD j [] := by
    rw [getD_drop_eq lines (i + 1) (j - (i + 1)) (by omega)]
    congr 1
    omega
  rw [heq] at hcond
  exact pos_of_fdiv_gt_one _ il hil hcond

theorem loop_positivity (md : Str) (lines : List Str) (nl : Nat) (il : Int)
    (hil : 0 < il) :
    ∀ (fuel : Nat) (i : Nat) (pni : Int) (pio : Bool) (st : PState) (out : POut),
    parseStep fuel (.loop md lines nl il i pni pio st) = .ok out →
    ∀ j, i ≤ j → j < lines.length →
      (numLeading (lines.getD j []) : Int) - (nl : Int) > 0 := by
  intro fuel
  induction fuel with
  | zero =>
    intro i pni pio st out h
    simp [parseStep] at h
  | succ fuel ih =>
    intro i pni pio st out h j hj1 hj2
    simp only [parseStep] at h
    split at h
    case isTrue hlt =>
      split at h
      case h_1 e heq => simp at h
      case h_2 ni heq =>
        have hposi : (numLeading (lines.getD i []) : Int) - (nl : Int) > 0 := by
          have hp := calc_num_indents_pos _ nl il pni pio ni heq
          have hgd : lines.getD i [] = lines.get ⟨i, hlt⟩ := by
            simp [List.getD_eq_getElem?_getD, List.getElem?_eq_getElem hlt]
          rw [hgd]
          exact hp
        rcases Nat.eq_or_lt_of_le hj1 with heqj | hltj
        · rw [← heqj]
          exact hposi
        · split at h
          case isFalse => simp at h
          case isTrue hni =>
            subst hni
            split at h
            · -- structure-command marker line
              split at h
              · simp at h
              · split at h
                · simp at h
                · exact ih (i + 1) 1 true _ out h j (by omega) hj2
            · split at h
              · -- bracketed list line
                split at h
                · simp at h
                · split at h
                  · -- head? = some, getLast? = some
                    split at h
                    · split at h
                      · split at h
                        · simp at h
                        · split at h
                          · -- directory-typed list
                            split at h
                            · simp at h
                            · rcases Nat.lt_or_ge j (i + 1 +
                                  (process_line_block (lines.drop (i + 1)) 1 nl il).2)
                                with hjb | hjb
                              · exact block_gap_pos lines nl il hil i j (by omega) hjb hj2
                              · exact ih _ 1 false _ out h j (by omega) hj2
                          · exact ih (i + 1) 1 true _ out h j (by omega) hj2
                      · simp at h
                    · simp at h
                  · simp at h
              · -- single-name line
                split at h
                · simp at h
                · split at h
                  · -- directory-typed name
                    split at h
                    · simp at h
                    · simp at h
                    · rcases Nat.lt_or_ge j (i + 1 +
                          (process_line_block (lines.drop (i + 1)) 1 nl il).2)
                        with hjb | hjb
                      · exact block_gap_pos lines nl il hil i j (by omega) hjb hj2
                      · exact ih _ 1 false _ out h j (by omega) hj2
                  · exact ih (i + 1) 1 true _ out h j (by omega) hj2
    case isFalse hlt => omega

theorem calc_indent_length_pos (ls : List Str) (il : Int)
    (h : calc_indent_length ls = .ok il) : 0 < il := by
  unfold calc_indent_length at h
  split at h
  · simp only [gt_iff_lt] at h
    split at h
    next hd =>
      simp only [Except.ok.injEq] at h
      omega
    next hd => simp at h
  · simp at h

theorem parse_positivity (fuel : Nat) (lines : List Str) (fs : FileStructure)
    (ls : List Str)
    (hok : FileStructure.parse fuel lines = .ok fs)
    (hpre : _remove_empty_lines (_remove_comments lines) = .ok ls) :
    ∀ j, 1 ≤ j → j < ls.length →
      (numLeading (ls.getD j []) : Int) - (numLeading (ls.getD 0 []) : Int) > 0 := by
  intro j hj1 hj2
  unfold FileStructure.parse at hok
  cases fuel with
  | zero => simp [parseStep] at hok
  | succ fuel =>
    simp only [parseStep, hpre] at hok
    split at hok
    rotate_left
    · simp at hok
    · simp at hok
    next f heq =>
      split at heq
      · simp at heq
      next l0 tail =>
        split at heq
        · simp at heq
        · split at heq
          · simp at heq
          next p c hpn =>
            split at heq
            · split at heq
              · split at heq
                · simp at heq
                next il hcil =>
                  split at heq
                  · simp at heq
                  · simp at heq
                  next st hloop =>
                    have := loop_positivity p (l0 :: tail) (numLeading l0) il
                      (calc_indent_length_pos _ _ hcil) fuel 1 0 false
                      ⟨none, [], [], []⟩ (.pst st) hloop j hj1 hj2
                    simpa using this
              next hlen =>
                exfalso
                simp only [List.length_cons, gt_iff_lt, not_lt] at hlen
                simp only [List.length_cons] at hj2
                omega
            · simp at heq

theorem parse_unit_nonpositive_fails (fuel : Nat) (lines : List Str) (l0 l1 : Str)
    (rest : List Str)
    (hpre : _remove_empty_lines (_remove_comments lines) = .ok (l0 :: l1 :: rest))
    (hunit : (numLeading l1 : Int) - (numLeading l0 : Int) ≤ 0) :
    ∀ fs, FileStructure.parse fuel lines ≠ .ok fs := by
  intro fs hok
  have hcil : calc_indent_length (l0 :: l1 :: rest) = .error .assertFail := by
    unfold calc_indent_length
    simp only [gt_iff_lt]
    rw [if_neg (not_lt.mpr hunit)]
  unfold FileStructure.parse at hok
  cases fuel with
  | zero => simp [parseStep] at hok
  | succ fuel =>
    simp only [parseStep, hpre] at hok
    split at hok
    rotate_left
    · simp at hok
    · simp at hok
    next f heq =>
      split at heq
      · simp at heq
      · split at heq
        · simp at heq
        next p c hpn =>
          split at heq
          · split at heq
            · split at heq
              · simp at heq
              next il2 hcil2 =>
                rw [hcil] at hcil2
                simp at hcil2
            next hlen2 =>
              simp only [List.length_cons, gt_iff_lt, not_lt] at hlen2
              omega
          · simp at heq

def c7aLines : List Str := ["A".toList, "B".toList]

/-- Three lines whose third line's depth (10) is not a multiple of the
    indent unit (4) derived from the first two lines, yet which parse
    successfully because calc_num_indents re-derives the unit per block. -/
def c7Lines : List Str :=
  ["T".toList, "    xyz".toList, "          z2".toList]

/-- C7: the provable halves of the indentation discipline.  (1) If the
    leading-space difference between the first two preprocessed lines (the
    indent unit of calc_indent_length) is not strictly positive, parsing
    fails for every fuel.  (2) In every successful parse, every preprocessed
    line after the first has strictly positive depth relative to the first
    line.  The divisibility-by-the-unit half of the claim is refuted by
    c7_counterexample_unit_not_global. -/
theorem c7_indent_validation :
    (∀ (fuel : Nat) (lines : List Str) (l0 l1 : Str) (rest : List Str),
      _remove_empty_lines (_remove_comments lines) = .ok (l0 :: l1 :: rest) →
      (numLeading l1 : Int) - (numLeading l0 : Int) ≤ 0 →
      ∀ fs, FileStructure.parse fuel lines ≠ .ok fs) ∧
    (∀ (fuel : Nat) (lines : List Str) (fs : FileStructure) (ls : List Str),
      FileStructure.parse fuel lines = .ok fs →
      _remove_empty_lines (_remove_comments lines) = .ok ls →
      ∀ j, 1 ≤ j → j < ls.length →
        (numLeading (ls.getD j []) : Int) - (numLeading (ls.getD 0 []) : Int) > 0) :=
  ⟨parse_unit_nonpositive_fails, parse_positivity⟩

theorem c7_indent_validation_witness :
    FileStructure.parse 5 c7aLines ≠ .ok emptyFS ∧
    (numLeading (demoLines.getD 1 []) : Int) - (numLeading (demoLines.getD 0 []) : Int) > 0 :=
  ⟨c7_indent_validation.1 5 c7aLines "A".toList "B".toList [] (by decide) (by decide) emptyFS,
   c7_indent_validation.2 20 demoLines demoFS demoLines rfl rfl 1 (by decide) (by decide)⟩

/-- C7 counterexample: the lines T / "    xyz" / "          z2" survive
    preprocessing unchanged, parse successfully, yet the third line's depth
    relative to the first (10 spaces) is not divisible by the indent unit
    derived from the first two lines (4 spaces): the divisibility rule is
    enforced only per directory block, against a unit re-derived from the
    block's own first two lines, not against the global unit of
    calc_indent_length. -/
theorem c7_counterexample_unit_not_global :
    (FileStructure.parse 10 c7Lines).isOk = true ∧
    _remove_empty_lines (_remove_comments c7Lines) = .ok c7Lines ∧
    numLeading (c7Lines.getD 1 []) - numLeading (c7Lines.getD 0 []) = 4 ∧
    numLeading (c7Lines.getD 2 []) - numLeading (c7Lines.getD 0 []) = 10 ∧
    ¬ (4 ∣ 10) :=
  ⟨rfl, rfl, rfl, rfl, by decide⟩

theorem second_marker_fails (fuel : Nat) (md : Str) (lines : List Str)
    (nl : Nat) (il : Int) (i : Nat) (pni : Int) (pio : Bool) (st : PState)
    (c0 : FileStructureCommand) (hc : st.scmd = some c0)
    (h : i < lines.length)
    (hmk : (">>".toList).isSuffixOf (pyStrip (lines.get ⟨i, h⟩)) = true) :
    ∀ out, parseStep fuel (.loop md lines nl il i pni pio st) ≠ .ok out := by
  intro out hok
  cases fuel with
  | zero => simp [parseStep] at hok
  | succ fuel =>
    simp only [parseStep] at hok
    rw [dif_pos h] at hok
    simp only [List.get_eq_getElem] at hmk
    simp only [hc] at hok
    split at hok <;> first | (simp at hok; done) | (simp_all; done) | (split at hok <;> first | (simp at hok; done) | (simp_all; done) | (split at hok <;> first | (simp at hok; done) | (simp_all; done) | (split at hok <;> first | (simp at hok; done) | (simp_all; done))))

/-- The parallel-list invariant of list_dir / list_dir_file_commands: equal
    lengths, and every Directory-typed entry has no command at this level. -/
def cmdsAligned (cs : List Ch) (ms : List (Option FileCommand)) : Prop :=
  ms.length = cs.length ∧
  ∀ (k : Nat) (g : FileStructure), cs[k]? = some (Sum.inr g) → ms[k]? = some none

theorem cmdsAligned_nil : cmdsAligned [] [] := by
  constructor
  · rfl
  · intro k g hk
    simp at hk

theorem cmdsAligned_append (cs ms cs' ms') (h1 : cmdsAligned cs ms)
    (h2 : cmdsAligned cs' ms') : cmdsAligned (cs ++ cs') (ms ++ ms') := by
  obtain ⟨hl1, ha1⟩ := h1
  obtain ⟨hl2, ha2⟩ := h2
  constructor
  · simp [hl1, hl2]
  · intro k g hk
    by_cases hlt : k < cs.length
    · rw [List.getElem?_append, if_pos hlt] at hk
      rw [List.getElem?_append, if_pos (by omega)]
      exact ha1 k g hk
    · rw [List.getElem?_append, if_neg hlt] at hk
      rw [List.getElem?_append, if_neg (by omega), hl1]
      exact ha2 _ g hk

theorem mapM_ok_length {α β : Type} (f : α → Except Err β) :
    ∀ (l : List α) (l' : List β), l.mapM f = .ok l' → l'.length = l.length := by
  intro l
  induction l with
  | nil =>
    intro l' h
    simp only [List.mapM_nil] at h
    cases h
    rfl
  | cons a t ih =>
    intro l' h
    rw [List.mapM_cons] at h
    simp only [Bind.bind, Except.bind, Pure.pure, Except.pure] at h
    split at h
    · exact absurd h (by simp)
    next x hfa =>
      split at h
      · exact absurd h (by simp)
      next xs hmt =>
        simp only [Except.ok.injEq] at h
        subst h
        simp [ih xs hmt]

theorem cmdsAligned_inr_none (children : List FileStructure) (filenames : List Str)
    (hlen : children.length = filenames.length) :
    cmdsAligned (children.map Sum.inr) (filenames.map (fun _ => none)) := by
  constructor
  · simp [hlen]
  · intro k g hk
    simp only [List.getElem?_map] at hk
    have hk' : k < filenames.length := by
      by_contra hge
      rw [List.getElem?_eq_none (by omega)] at hk
      simp at hk
    simp only [List.getElem?_map]
    cases hf : filenames[k]? with
    | none => rw [List.getElem?_eq_none_iff] at hf; omega
    | some x => simp

theorem cmdsAligned_inl (paths : List Str) (c : Option FileCommand)
    (filenames : List Str) (hlen : paths.length = filenames.length) :
    cmdsAligned (paths.map Sum.inl) (filenames.map (fun _ => c)) := by
  constructor
  · simp [hlen]
  · intro k g hk
    simp only [List.getElem?_map] at hk
    cases hp : paths[k]? with
    | none => rw [hp] at hk; simp at hk
    | some x => rw [hp] at hk; simp at hk

theorem cmdsAligned_single_inr (g : FileStructure) :
    cmdsAligned [Sum.inr g] [none] := by
  constructor
  · rfl
  · intro k g' hk
    cases k with
    | zero => simp
    | succ k => simp at hk

theorem cmdsAligned_single_inl (p : Str) (c : Option FileCommand) :
    cmdsAligned [Sum.inl p] [c] := by
  constructor
  · rfl
  · intro k g hk
    cases k with
    | zero => simp at hk
    | succ k => simp at hk

theorem parseStep_cmd_align : ∀ (fuel : Nat) (pin : PIn) (out : POut),
    parseStep fuel pin = .ok out →
    (match pin with
     | .top _ => True
     | .loop _ _ _ _ _ _ _ st => cmdsAligned st.list_dir st.list_cmds) →
    (match out with
     | .fs f => cmdsAligned f.list_dir f.list_dir_file_commands
     | .pst st => cmdsAligned st.list_dir st.list_cmds) := by
  intro fuel
  induction fuel with
  | zero => intro pin out hok hin; simp [parseStep] at hok
  | succ fuel ih =>
    intro pin out hok hin
    cases pin with
    | top lines0 =>
      simp only [parseStep] at hok
      split at hok
      · simp at hok
      next ls hpre =>
        split at hok
        · simp at hok
        next l0 tail =>
          split at hok
          · simp at hok
          · split at hok
            · simp at hok
            next p c hpn =>
              split at hok
              · split at hok
                · split at hok
                  · simp at hok
                  next il hcil =>
                    split at hok
                    · simp at hok
                    · simp at hok
                    next st hloop =>
                      simp only [Except.ok.injEq] at hok
                      subst hok
                      exact ih _ _ hloop cmdsAligned_nil
                next hlen2 =>
                  simp only [Except.ok.injEq] at hok
                  subst hok
                  exact cmdsAligned_nil
              · simp at hok
    | loop md lines nl il i pni pio st =>
      simp only [parseStep] at hok
      split at hok
      next hlt =>
        split at hok
        · simp at hok
        next ni hc1 =>
          split at hok
          · split at hok
            next hsuf =>
              split at hok
              · simp at hok
              next c hfsc =>
                split at hok
                next sc hsc => simp at hok
                next hsc => exact ih _ _ hok hin
            next hsuf =>
              split at hok
              · split at hok
                · simp at hok
                next fstr fcmd hpn2 =>
                  split at hok
                  next hch lch =>
                    split at hok
                    · split at hok
                      · split at hok
                        · simp at hok
                        next f0 frest hfn =>
                          split at hok
                          · split at hok
                            · simp at hok
                            next children hch2 =>
                              exact ih _ _ hok (cmdsAligned_append _ _ _ _ hin (cmdsAligned_inr_none children _ (by simpa using mapM_ok_length _ _ _ hch2)))
                          · exact ih _ _ hok (cmdsAligned_append _ _ _ _ hin (cmdsAligned_inl _ _ _ (by simp)))
                      · simp at hok
                    · simp at hok
                  next => simp at hok
              · split at hok
                · simp at hok
                next fn fc hpn2 =>
                  split at hok
                  · split at hok
                    · simp at hok
                    · simp at hok
                    next g hg =>
                      exact ih _ _ hok (cmdsAligned_append _ _ _ _ hin (cmdsAligned_single_inr g))
                  · exact ih _ _ hok (cmdsAligned_append _ _ _ _ hin (cmdsAligned_single_inl _ _))
          · simp at hok
      next hge =>
        simp only [Except.ok.injEq] at hok
        subst hok
        exact hin

theorem cmd_value_facts (c : FileCommand) :
    (' ' ∉ c.value) ∧ ('#' ∉ c.value) ∧
    pyStrip c.value = c.value ∧ FileCommand.from_str c.value = some c := by
  cases c <;> decide

theorem dropWhile_replicate_append (P : Char → Bool) (a : Char) (ha : P a = true) :
    ∀ (n : Nat) (l : Str), (List.replicate n a ++ l).dropWhile P = l.dropWhile P := by
  intro n
  induction n with
  | zero => intro l; rfl
  | succ n ihn =>
    intro l
    rw [List.replicate_succ, List.cons_append, List.dropWhile_cons, ha]
    simp [ihn]

theorem head_not_space (p : Str) (hls : lstrip p = p) (hne : p ≠ []) :
    ∃ h t, p = h :: t ∧ pyIsSpace h = false := by
  cases hp : p with
  | nil => exact absurd hp hne
  | cons h t =>
    refine ⟨h, t, rfl, ?_⟩
    by_contra hP
    rw [Bool.not_eq_false] at hP
    rw [hp] at hls
    rw [lstrip, List.dropWhile_cons, hP] at hls
    have h1 := congrArg List.length hls
    have h2 : (t.dropWhile pyIsSpace).length ≤ t.length :=
      (List.dropWhile_suffix pyIsSpace).length_le
    simp at h1
    omega

theorem rstrip_fix (l : Str) (ch : Char) (hlast : l.getLast? = some ch)
    (hch : pyIsSpace ch = false) : rstrip l = l := by
  rw [← List.head?_reverse] at hlast
  cases hrev : l.reverse with
  | nil => rw [hrev] at hlast; simp at hlast
  | cons a t =>
    rw [hrev] at hlast
    simp only [List.head?_cons, Option.some.injEq] at hlast
    subst hlast
    rw [rstrip, hrev, List.dropWhile_cons, hch]
    simp only [Bool.false_eq_true, if_false]
    have h3 := congrArg List.reverse hrev
    simpa using h3.symm

theorem last_gt (p : Str) (c : FileCommand) :
    (p ++ ' ' :: c.value).getLast? = some '>' := by
  rw [List.getLast?_append_of_ne_nil _ (by simp)]
  cases c <;> rfl

theorem not_marker (p : Str) (c : FileCommand) :
    (">>".toList).isSuffixOf (p ++ ' ' :: c.value) = false := by
  rw [Bool.eq_false_iff]
  intro hsuf
  rw [List.isSuffixOf_iff_suffix, ← List.reverse_prefix, List.reverse_append] at hsuf
  cases c <;> simp [FileCommand.value, List.cons_prefix_cons] at hsuf

theorem findIdx?_skip (P : Char → Bool) :
    ∀ (xs ys : Str), (∀ x ∈ xs, P x = false) →
    (xs ++ ys).findIdx? P = (ys.findIdx? P).map (· + xs.length) := by
  intro xs
  induction xs with
  | nil =>
    intro ys hxs
    simp
  | cons a t ihx =>
    intro ys hxs
    have ha : P a = false := hxs a (by simp)
    rw [List.cons_append, List.findIdx?_cons, ha]
    simp only [Bool.false_eq_true, if_false]
    rw [List.findIdx?_succ, ihx ys (fun x hx => hxs x (by simp [hx]))]
    cases ys.findIdx? P with
    | none => simp
    | some j => simp; omega

theorem rindex_sep (p : Str) (c : FileCommand) :
    rindexSpace (p ++ ' ' :: c.value) = some p.length := by
  unfold rindexSpace
  rw [List.reverse_append, List.reverse_cons, List.append_assoc]
  rw [findIdx?_skip (· = ' ') c.value.reverse ([' '] ++ p.reverse)
    (by
      intro x hx
      have hns := (cmd_value_facts c).1
      simp only [List.mem_reverse] at hx
      simp only [decide_eq_false_iff_not]
      intro hxeq
      exact hns (hxeq ▸ hx))]
  rw [List.cons_append, List.findIdx?_cons]
  simp

theorem strip_header (nl : Nat) (il : Int) (p : Str) (c : FileCommand)
    (hls : lstrip p = p) (hne : p ≠ []) :
    pyStrip (mkHeader nl il p (some c)) = p ++ ' ' :: c.value := by
  obtain ⟨h0, t0, hp, hP⟩ := head_not_space p hls hne
  have hcs : cmdSuffix (some c) = ' ' :: c.value := rfl
  unfold mkHeader spacesN pyStrip
  rw [hcs, List.append_assoc, lstrip, dropWhile_replicate_append pyIsSpace ' ' (by decide)]
  rw [hp, List.cons_append, List.dropWhile_cons, hP]
  simp only [Bool.false_eq_true, if_false]
  rw [← List.cons_append, ← hp]
  exact rstrip_fix _ '>' (last_gt p c) (by decide)

theorem pnl_sep (p : Str) (c : FileCommand) (hls : lstrip p = p)
    (hrs : rstrip p = p) :
    FileStructure.parse_normal_line (p ++ ' ' :: c.value) =
      .ok (_remove_trailing_slash_if_exists p, some c) := by
  unfold FileStructure.parse_normal_line
  simp only [last_gt p c]
  simp only [rindex_sep p c]
  rw [List.take_left]
  have hstrip : pyStrip p = p := by rw [pyStrip, hls, hrs]
  rw [hstrip]
  have hdrop : (p ++ ' ' :: c.value).drop (p.length + 1) = c.value := by
    rw [List.append_cons]
    exact List.drop_left' (by simp)
  rw [hdrop]
  rw [(cmd_value_facts c).2.2.1]
  rw [(cmd_value_facts c).2.2.2]
  simp

theorem dropWhile_append_last (P : Str → Bool) (h : Str) (hP : P h = false) :
    ∀ xs : List Str, ∃ ys, ((xs ++ [h]).dropWhile P).reverse = h :: ys := by
  intro xs
  induction xs with
  | nil => exact ⟨[], by simp [List.dropWhile_cons, hP]⟩
  | cons a t iht =>
    by_cases ha : P a = true
    · obtain ⟨ys, hys⟩ := iht
      refine ⟨ys, ?_⟩
      rw [List.cons_append, List.dropWhile_cons, ha]
      simpa using hys
    · refine ⟨t.reverse ++ [a], ?_⟩
      rw [List.cons_append, List.dropWhile_cons]
      rw [Bool.not_eq_true] at ha
      rw [ha]
      simp

theorem rel_header (h : Str) (t : List Str) (hh : isBlankLine h = false) :
    ∃ t', _remove_empty_lines (h :: t) = .ok (h :: t') := by
  unfold _remove_empty_lines
  simp only [List.dropWhile_cons, hh, Bool.false_eq_true, if_false]
  rw [if_neg (by simp)]
  obtain ⟨ys, hys⟩ := dropWhile_append_last isBlankLine h hh t.reverse
  refine ⟨ys, ?_⟩
  rw [List.reverse_cons]
  rw [hys]

theorem header_delegation (fuel : Nat) (nl : Nat) (il : Int) (p : Str)
    (c : FileCommand) (rest : List Str) (g : FileStructure)
    (hls : lstrip p = p) (hrs : rstrip p = p) (hne : p ≠ []) (hhash : '#' ∉ p)
    (hok : parseStep fuel (.top (mkHeader nl il p (some c) :: rest)) = .ok (.fs g)) :
    g.main_dir_file_command = some c := by
  cases fuel with
  | zero => simp [parseStep] at hok
  | succ fuel =>
    have hsh := strip_header nl il p c hls hne
    have hrc : (mkHeader nl il p (some c)).takeWhile (· ≠ '#') =
        mkHeader nl il p (some c) := by
      apply List.takeWhile_eq_self_iff.2
      intro x hx
      rw [show mkHeader nl il p (some c) =
        List.replicate (nl + il.toNat) ' ' ++ p ++ ' ' :: c.value from rfl] at hx
      simp only [List.mem_append, List.mem_cons, List.mem_replicate] at hx
      simp only [decide_eq_true_eq]
      rcases hx with (⟨_, rfl⟩ | hx) | (rfl | hx)
      · decide
      · intro heq
        exact hhash (heq ▸ hx)
      · decide
      · intro heq
        exact (cmd_value_facts c).2.1 (heq ▸ hx)
    have hnb : isBlankLine (mkHeader nl il p (some c)) = false := by
      unfold isBlankLine
      rw [hsh]
      simp
    simp only [parseStep] at hok
    have hrc2 : _remove_comments (mkHeader nl il p (some c) :: rest) =
        mkHeader nl il p (some c) :: _remove_comments rest := by
      unfold _remove_comments
      rw [List.map_cons, hrc]
    rw [hrc2] at hok
    obtain ⟨t', hpre⟩ := rel_header _ (_remove_comments rest) hnb
    simp only [hpre] at hok
    simp only [hsh] at hok
    simp only [not_marker p c] at hok
    simp only [pnl_sep p c hls hrs] at hok
    split at hok
    · simp at hok
    · split at hok
      · split at hok
        · split at hok
          · simp at hok
          next il2 hcil =>
            split at hok
            · simp at hok
            · simp at hok
            next st hloop =>
              simp only [Except.ok.injEq, POut.fs.injEq] at hok
              rw [← hok]
              rfl
        · simp only [Except.ok.injEq, POut.fs.injEq] at hok
          rw [← hok]
          rfl
      · simp at hok

theorem parse_cmd_align (fuel : Nat) (lines : List Str) (f : FileStructure)
    (hok : FileStructure.parse fuel lines = .ok f) :
    ∀ (k : Nat) (g : FileStructure), f.list_dir[k]? = some (Sum.inr g) →
      f.list_dir_file_commands[k]? = some none := by
  unfold FileStructure.parse at hok
  split at hok
  next f' heq =>
    simp only [Except.ok.injEq] at hok
    subst hok
    exact (parseStep_cmd_align fuel _ _ heq trivial).2
  · simp at hok
  · simp at hok

def c9mLines : List Str := ["T".toList, "    <<0>>".toList]

def c9mSt : PState := ⟨some .that_is_all, [], [], []⟩

/-- The nested Directory child of the demo structure, as stored in
    list_dir. -/
def c9Child : FileStructure :=
  match demoFS.list_dir[0]? with
  | some (Sum.inr g) => g
  | _ => emptyFS

/-- The Directory produced from a synthetic header that carries a delegated
    command token. -/
def c9G : FileStructure :=
  match parseStep 5 (.top [mkHeader 0 4 "T/xyz".toList (some .create)]) with
  | .ok (.fs g) => g
  | _ => emptyFS

/-- C9: (1) at most one StructureCommand per directory block: from a loop
    state whose structure command is already set, a further marker line
    (stripping to a ">>"-suffixed line) makes the parse of that block fail
    for every fuel; (2) in every successfully parsed FileStructure, a
    list_dir entry that is a nested Directory node has `none` recorded at
    the same index of list_dir_file_commands, so a command is never
    retained at the introducing level; (3) a command placed on the
    synthetic header of a nested block is delegated into the produced
    Directory node itself: its main_dir_file_command is exactly that
    command. -/
theorem c9_structure_command_and_delegation :
    (∀ (fuel : Nat) (md : Str) (lines : List Str) (nl : Nat) (il : Int)
       (i : Nat) (pni : Int) (pio : Bool) (st : PState)
       (c0 : FileStructureCommand),
      st.scmd = some c0 →
      ∀ (h : i < lines.length),
      (">>".toList).isSuffixOf (pyStrip (lines.get ⟨i, h⟩)) = true →
      ∀ out, parseStep fuel (.loop md lines nl il i pni pio st) ≠ .ok out) ∧
    (∀ (fuel : Nat) (lines : List Str) (f : FileStructure),
      FileStructure.parse fuel lines = .ok f →
      ∀ (k : Nat) (g : FileStructure), f.list_dir[k]? = some (Sum.inr g) →
        f.list_dir_file_commands[k]? = some none) ∧
    (∀ (fuel : Nat) (nl : Nat) (il : Int) (p : Str) (c : FileCommand)
       (rest : List Str) (g : FileStructure),
      lstrip p = p → rstrip p = p → p ≠ [] → '#' ∉ p →
      parseStep fuel (.top (mkHeader nl il p (some c) :: rest)) = .ok (.fs g) →
      g.main_dir_file_command = some c) := by
  refine ⟨?_, ?_, ?_⟩
  · intro fuel md lines nl il i pni pio st c0 hc h hmk
    exact second_marker_fails fuel md lines nl il i pni pio st c0 hc h hmk
  · intro fuel lines f hok
    exact parse_cmd_align fuel lines f hok
  · intro fuel nl il p c rest g hls hrs hne hhash hok
    exact header_delegation fuel nl il p c rest g hls hrs hne hhash hok

theorem c9_structure_command_and_delegation_witness :
    parseStep 5 (.loop "T".toList c9mLines 0 4 1 0 false c9mSt) ≠
      .ok (.pst ⟨none, [], [], []⟩) ∧
    demoFS.list_dir_file_commands[0]? = some none ∧
    c9G.main_dir_file_command = some FileCommand.create :=
  ⟨c9_structure_command_and_delegation.1 5 "T".toList c9mLines 0 4 1 0 false
      c9mSt .that_is_all rfl (by decide) (by decide) (.pst ⟨none, [], [], []⟩),
   c9_structure_command_and_delegation.2.1 20 demoLines demoFS rfl 0 c9Child rfl,
   c9_structure_command_and_delegation.2.2 5 0 4 "T/xyz".toList .create []
      c9G (by decide) (by decide) (by decide) (by decide) rfl⟩
